import Mathlib

/-!
Verification of the clip-resolution and topic-classification core of the
`Clip_Generator` repository (`src/youtube_clipper/core/clip_finder.py` and
`src/youtube_clipper/core/topic_classifier.py`).

Texts are modelled as `List Char`; Python floats are modelled as `ℚ`
(all arithmetic the claims mention is exact decimal arithmetic).
The regex searches of the source are embedded as executable scanning
functions realizing exactly the patterns used by the code
(leftmost match, eager sub-matching — extensionally equal to backtracking
for these patterns since the eagerly consumed characters can never be
claimed by a later pattern element — and `re.IGNORECASE` via ASCII case
folding, as in CPython on the ASCII pattern literals that occur).
The external GPT oracle is modelled as a value of
`Except OracleErr (List Char)` (transport failure or response text).
-/

namespace ClipGen

/-! ## The embedded program -/

/-- ASCII lower-casing of one character, as Python's `str.lower`/`re.IGNORECASE`
act on the ASCII literals appearing in the source patterns. -/
def lowerCh (c : Char) : Char :=
  if 65 ≤ c.toNat ∧ c.toNat ≤ 90 then Char.ofNat (c.toNat + 32) else c

/-- ASCII upper-casing of one character, as Python's `str.upper`. -/
def upperCh (c : Char) : Char :=
  if 97 ≤ c.toNat ∧ c.toNat ≤ 122 then Char.ofNat (c.toNat - 32) else c

/-- `str.upper` on a text. -/
def upperStr (s : List Char) : List Char := s.map upperCh

/-- `str.lower` on a text. -/
def lowerStr (s : List Char) : List Char := s.map lowerCh

/-- The characters matched by regex `\s` / stripped by `str.strip()` (ASCII). -/
def isPySpace (c : Char) : Bool :=
  c = ' ' || c = '\t' || c = '\n' || c = '\r' || c = '\x0b' || c = '\x0c'

/-- The characters matched by regex `[0-9]` (and `\d` on ASCII text). -/
def isDigitCh (c : Char) : Bool := 48 ≤ c.toNat && c.toNat ≤ 57

/-- The characters matched by regex `\w` on ASCII text. -/
def isWordCh (c : Char) : Bool :=
  isDigitCh c || (65 ≤ c.toNat && c.toNat ≤ 90) || (97 ≤ c.toNat && c.toNat ≤ 122) || c = '_'

def qadd (a b : ℚ) : ℚ := mkRat (a.num * b.den + b.num * a.den) (a.den * b.den)

def qsub (a b : ℚ) : ℚ := mkRat (a.num * b.den - b.num * a.den) (a.den * b.den)

def qmul (a b : ℚ) : ℚ := mkRat (a.num * b.num) (a.den * b.den)

def qinv (a : ℚ) : ℚ := Rat.divInt a.den a.num

def qdiv (a b : ℚ) : ℚ := qmul a (qinv b)

/-- Powers of ten (denominators of decimal literals), in reducible form. -/
def pow10 : ℕ → ℕ
  | 0 => 1
  | n + 1 => 10 * pow10 n

/-- Case-insensitive match of a pattern literal at the head of the text;
returns the remaining text on success. -/
def matchLitCI : List Char → List Char → Option (List Char)
  | [], t => some t
  | _ :: _, [] => none
  | p :: ps, c :: cs => if lowerCh p = lowerCh c then matchLitCI ps cs else none

/-- Greedy match of `[0-9]+\.?[0-9]*` at the head of the text; returns the
captured literal and the remaining text. (Greediness is exact here: no later
pattern element of the source patterns can consume a digit or the dot.) -/
def captureNum (t : List Char) : Option (List Char × List Char) :=
  let ds := t.takeWhile isDigitCh
  if ds.isEmpty then none
  else
    match t.dropWhile isDigitCh with
    | '.' :: r2 => some (ds ++ '.' :: r2.takeWhile isDigitCh, r2.dropWhile isDigitCh)
    | r => some (ds, r)

/-- The capture group `([0-9]+\.?[0-9]*|SENTINEL)` at the head of the text:
the numeric alternative is tried first, then the sentinel literal
(case-insensitively); the raw matched characters are returned, as
`match.group(1)` does. -/
def fieldValueAt (sentinel t : List Char) : Option (List Char) :=
  match captureNum t with
  | some (cap, _) => some cap
  | none =>
    match matchLitCI sentinel t with
    | some _ => some (t.take sentinel.length)
    | none => none

/-- One attempt of the strict field pattern `FIELD\s*(NUM|SENTINEL)` at the
head of the text (`FIELD` includes the colon, e.g. `START_TIME:`). -/
def matchFieldAt (fieldLit sentinel t : List Char) : Option (List Char) :=
  match matchLitCI fieldLit t with
  | some rest => fieldValueAt sentinel (rest.dropWhile isPySpace)
  | none => none

/-- `re.search` for the strict field pattern: leftmost successful attempt. -/
def extractField (fieldLit sentinel : List Char) : List Char → Option (List Char)
  | [] => matchFieldAt fieldLit sentinel []
  | c :: cs =>
    match matchFieldAt fieldLit sentinel (c :: cs) with
    | some v => some v
    | none => extractField fieldLit sentinel cs

/-- Value of a digit string (most significant first). -/
def digitsVal (ds : List Char) : ℕ :=
  ds.foldl (fun a c => a * 10 + (c.toNat - 48)) 0

/-- Shape test for the decimal literals `[0-9]+(\.[0-9]*)?` — exactly the
strings the source ever passes to `float()` (after its sentinel checks). -/
def isNumLit (s : List Char) : Bool :=
  !(s.takeWhile isDigitCh).isEmpty &&
    (match s.dropWhile isDigitCh with
     | [] => true
     | '.' :: fs => fs.all isDigitCh
     | _ => false)

/-- Exact value of a decimal literal (`float("12.5") = 12.5`, `float("12.") = 12.0`). -/
def numVal (s : List Char) : ℚ :=
  match s.dropWhile isDigitCh with
  | '.' :: fs => qadd (digitsVal (s.takeWhile isDigitCh) : ℚ) (mkRat (digitsVal fs) (pow10 fs.length))
  | _ => (digitsVal (s.takeWhile isDigitCh) : ℚ)

/-- Python's `float(s)` on the literal shapes occurring here: the numeric value,
or `none` for the `ValueError` path of the source. -/
def pyFloat (s : List Char) : Option ℚ :=
  if isNumLit s then some (numVal s) else none

/-- `(?:seconds?|s)` at the head of the text (alternatives in pattern order). -/
def matchUnit (t : List Char) : Option (List Char) :=
  match matchLitCI "seconds".data t with
  | some r => some r
  | none =>
    match matchLitCI "second".data t with
    | some r => some r
    | none => matchLitCI "s".data t

/-- `(?:to|-)?` at the head of the text (optional, eagerly consumed — which is
exact, since `t`/`-` can never start the following `\s*(\d...)`). -/
def matchSep (t : List Char) : List Char :=
  match matchLitCI "to".data t with
  | some r => r
  | none =>
    match t with
    | '-' :: r => r
    | _ => t

/-- One attempt of the fallback pair pattern
`(\d+\.?\d*)\s*(?:seconds?|s)\s*(?:to|-)?\s*(\d+\.?\d*)\s*(?:seconds?|s)`
at the head of the text; returns both raw capture groups. -/
def matchPairAt (t : List Char) : Option (List Char × List Char) :=
  match captureNum t with
  | none => none
  | some (c1, r1) =>
    match matchUnit (r1.dropWhile isPySpace) with
    | none => none
    | some r2 =>
      match captureNum ((matchSep (r2.dropWhile isPySpace)).dropWhile isPySpace) with
      | none => none
      | some (c2, r4) =>
        match matchUnit (r4.dropWhile isPySpace) with
        | none => none
        | some _ => some (c1, c2)

/-- `re.search` for the fallback pair pattern: leftmost successful attempt. -/
def findPair : List Char → Option (List Char × List Char)
  | [] => matchPairAt []
  | c :: cs =>
    match matchPairAt (c :: cs) with
    | some v => some v
    | none => findPair cs

/-- The fallback branch of `_parse_timestamp_response` (lines 229-245): first
loose-pattern match, numeric coercion, accept only if `end > start`. -/
def fallbackPair (t : List Char) : Option ℚ × Option ℚ :=
  match findPair t with
  | some (c1, c2) =>
    match pyFloat c1, pyFloat c2 with
    | some s, some e => if s < e then (some s, some e) else (none, none)
    | _, _ => (none, none)
  | none => (none, none)

/-- `ClipFinder._parse_timestamp_response`: strict `START_TIME`/`END_TIME`
fields with `NOT_FOUND` sentinel and `end > start` validation, falling back
to the loose pair pattern when the strict search fails. (The source's
`try/except` wrappers are dead here: every step is total.) -/
def parse_timestamp_response (t : List Char) : Option ℚ × Option ℚ :=
  match extractField "START_TIME:".data "NOT_FOUND".data t,
        extractField "END_TIME:".data "NOT_FOUND".data t with
  | some ss, some es =>
    if upperStr ss = "NOT_FOUND".data ∨ upperStr es = "NOT_FOUND".data then (none, none)
    else
      match pyFloat ss, pyFloat es with
      | some s, some e => if e ≤ s then (none, none) else (some s, some e)
      | _, _ => (none, none)
  | _, _ => fallbackPair t

/-- A transport/service failure of the oracle (`openai.APIError`). -/
structure OracleErr where
  msg : List Char
deriving DecidableEq

/-- The domain error of the module (`ClipExtractionError`). -/
inductive ClipErr where
  | extraction (msg : List Char)
deriving DecidableEq

instance {ε α : Type} [DecidableEq ε] [DecidableEq α] : DecidableEq (Except ε α) := fun a b =>
  match a, b with
  | .ok x, .ok y =>
    if h : x = y then .isTrue (by rw [h]) else .isFalse (fun hc => h (by cases hc; rfl))
  | .error x, .error y =>
    if h : x = y then .isTrue (by rw [h]) else .isFalse (fun hc => h (by cases hc; rfl))
  | .ok _, .error _ => .isFalse (fun hc => Except.noConfusion hc)
  | .error _, .ok _ => .isFalse (fun hc => Except.noConfusion hc)

/-- `ClipFinder.find_clip_timestamps` (lines 47-110).  `durOk` models
`config.validate_clip_duration` — modelled from the spec: `config.py` is not
part of `src/`, and the spec only states that the target-duration band check
is a logged advisory; it is therefore kept abstract as a boolean predicate
on the duration, whose value only feeds the (discarded) log-warning branch. -/
def find_clip_timestamps (durOk : ℚ → Bool) (resp : Except OracleErr (List Char)) :
    Except ClipErr (Option ℚ × Option ℚ) :=
  match resp with
  | .error e => .error (.extraction ("OpenAI API error: ".data ++ e.msg))
  | .ok text =>
    match parse_timestamp_response text with
    | (some s, some e) =>
      -- `if not config.validate_clip_duration(duration): logger.warning(...)`:
      -- the advisory is logged and the pair is returned either way.
      let _advisory := durOk (qsub e s)
      .ok (some s, some e)
    | _ => .ok (none, none)

/-- One element of the result list of `find_multiple_clips` (lines 269-288);
`error` is present only on the per-item exception path. -/
structure ClipItem where
  description : List Char
  start_time : Option ℚ
  end_time : Option ℚ
  duration : Option ℚ
  success : Bool
  error : Option (List Char)
deriving DecidableEq

/-- Python truthiness of an `Optional[float]`: `None` and `0.0` are falsy. -/
def truthyF : Option ℚ → Bool
  | none => false
  | some x => !(x = 0 : Bool)

/-- The loop body of `find_multiple_clips` for one description: the result
dictionary on success, or the `except` dictionary recording `str(e)`. -/
def clipItemFor (durOk : ℚ → Bool) (resp : Except OracleErr (List Char))
    (d : List Char) : ClipItem :=
  match find_clip_timestamps durOk resp with
  | .ok (s, e) =>
    { description := d, start_time := s, end_time := e,
      -- `end_time - start_time if start_time and end_time else None`
      duration := if truthyF s && truthyF e then some (qsub (e.getD 0) (s.getD 0)) else none,
      -- `start_time is not None and end_time is not None`
      success := s.isSome && e.isSome,
      error := none }
  | .error (.extraction msg) =>
    { description := d, start_time := none, end_time := none,
      duration := none, success := false, error := some msg }

/-- `ClipFinder.find_multiple_clips` (lines 251-290): sequential resolution,
one result per description, exceptions caught per item. -/
def find_multiple_clips (oracle : List Char → Except OracleErr (List Char))
    (durOk : ℚ → Bool) (descs : List (List Char)) : List ClipItem :=
  descs.map (fun d => clipItemFor durOk (oracle d) d)

/-- The dictionary returned by `suggest_clip_improvements` /
`_parse_improvement_response`.  `changed` is an `Option` because the
oracle-failure fallback dictionary (lines 351-356) has no `changed` key. -/
structure ImprovementResult where
  suggested_start : ℚ
  suggested_end : ℚ
  improvement_reason : List Char
  confidence : List Char
  changed : Option Bool
deriving DecidableEq

/-- `CONFIDENCE:\s*(HIGH|MEDIUM|LOW)` attempted at the head of the text. -/
def matchConfAt (t : List Char) : Option (List Char) :=
  match matchLitCI "CONFIDENCE:".data t with
  | none => none
  | some rest =>
    let r := rest.dropWhile isPySpace
    match matchLitCI "HIGH".data r with
    | some _ => some (r.take 4)
    | none =>
      match matchLitCI "MEDIUM".data r with
      | some _ => some (r.take 6)
      | none =>
        match matchLitCI "LOW".data r with
        | some _ => some (r.take 3)
        | none => none

/-- `re.search` for the confidence pattern. -/
def extractConfidence : List Char → Option (List Char)
  | [] => matchConfAt []
  | c :: cs =>
    match matchConfAt (c :: cs) with
    | some v => some v
    | none => extractConfidence cs

/-- `IMPROVEMENT_REASON:\s*(.+?)(?=\n|$)` (IGNORECASE|DOTALL) attempted at the
head of the text: greedy `\s*`, then the lazy nonempty capture runs up to the
next newline or the end; when nothing follows the whitespace the engine
backtracks one whitespace character into the capture. -/
def matchReasonAt (t : List Char) : Option (List Char) :=
  match matchLitCI "IMPROVEMENT_REASON:".data t with
  | none => none
  | some rest =>
    match rest.dropWhile isPySpace with
    | [] =>
      match (rest.takeWhile isPySpace).getLast? with
      | some c => some [c]
      | none => none
    | r => some (r.takeWhile (fun c => !(c = '\n' : Bool)))

/-- `re.search` for the reason pattern. -/
def extractReason : List Char → Option (List Char)
  | [] => matchReasonAt []
  | c :: cs =>
    match matchReasonAt (c :: cs) with
    | some v => some v
    | none => extractReason cs

/-- `str.strip()`. -/
def stripStr (s : List Char) : List Char :=
  ((s.dropWhile isPySpace).reverse.dropWhile isPySpace).reverse

/-- One suggested boundary: `original` when the field is absent, its value is
the `KEEP_CURRENT` sentinel, or numeric coercion fails (lines 383-407). -/
def suggestedTime (field : List Char) (t : List Char) (original : ℚ) : ℚ :=
  match extractField field "KEEP_CURRENT".data t with
  | none => original
  | some raw =>
    if upperStr raw = "KEEP_CURRENT".data then original
    else (pyFloat raw).getD original

/-- `ClipFinder._parse_improvement_response` (lines 358-429); its
`try/except` is dead code (every step is total), so only the main path is
embedded. -/
def parse_improvement_response (t : List Char) (original_start original_end : ℚ) :
    ImprovementResult :=
  let suggested_start := suggestedTime "SUGGESTED_START:".data t original_start
  let suggested_end := suggestedTime "SUGGESTED_END:".data t original_end
  { suggested_start := suggested_start,
    suggested_end := suggested_end,
    improvement_reason :=
      match extractReason t with
      | some r => stripStr r
      | none => "No specific improvements suggested".data,
    confidence :=
      match extractConfidence t with
      | some c => upperStr c
      | none => "MEDIUM".data,
    changed := some (decide (suggested_start ≠ original_start ∨ suggested_end ≠ original_end)) }

/-- `ClipFinder.suggest_clip_improvements` (lines 292-356): parse the oracle
response; on any failure (modelled: the oracle call failing) return the
fallback dictionary — which carries no `changed` key. -/
def suggest_clip_improvements (resp : Except OracleErr (List Char))
    (start_time end_time : ℚ) : ImprovementResult :=
  match resp with
  | .ok text => parse_improvement_response text start_time end_time
  | .error _ =>
    { suggested_start := start_time, suggested_end := end_time,
      improvement_reason := "Could not analyze improvements".data,
      confidence := "LOW".data,
      changed := none }

/-- The category table (`config.TOPIC_CATEGORIES`): category name with its
keyword list, in dict insertion order. -/
abbrev Cats := List (List Char × List (List Char))

/-- `keyword.split()`: number of maximal whitespace-free runs.
`inWord` tracks whether the previous character was part of a run. -/
def countRunsAux : List Char → Bool → ℕ
  | [], _ => 0
  | c :: cs, inWord =>
    if isPySpace c then countRunsAux cs false
    else (if inWord then 0 else 1) + countRunsAux cs true

/-- `len(keyword.split())`. -/
def wordCount (s : List Char) : ℕ := countRunsAux s false

/-- The fixed high-specificity term list of `_calculate_category_weights`
(topic_classifier.py line 53). -/
def specific_terms : List (List Char) :=
  ["federal reserve".data, "interest rate".data, "cpi".data, "gdp".data,
   "unemployment rate".data]

/-- The weight `_calculate_category_weights` assigns to one keyword
(lines 43-57): base 1.0, ×1.5 for multi-word phrases, ×2.0 for the specific
terms.  The per-category weight dicts contain exactly the category's own
keywords, so the lookups `category_weights[category].get(keyword, 1.0)` in
both classifiers always resolve to this value. -/
def keywordWeight (kw : List Char) : ℚ :=
  let base : ℚ := 1
  let base := if wordCount kw > 1 then qmul base (mkRat 3 2) else base
  if kw ∈ specific_terms then qmul base 2 else base

/-- Python's substring test `keyword in text`. -/
def litAt : List Char → List Char → Bool
  | [], _ => true
  | _ :: _, [] => false
  | p :: ps, c :: cs => p = c && litAt ps cs

/-- `p in t` (contiguous substring, the empty pattern matches anywhere). -/
def isSubstr (p : List Char) : List Char → Bool
  | [] => litAt p []
  | c :: cs => litAt p (c :: cs) || isSubstr p cs

/-- The result dictionary shared by `classify_by_description` and
`classify_by_content`: primary category, confidence, the per-category
`all_scores` (category name with its `score` entry), and the method tag. -/
structure ClassResult where
  primary_category : List Char
  confidence_score : ℚ
  all_scores : List (List Char × ℚ)
  method : List Char
deriving DecidableEq

/-- `max(category_scores, key=lambda x: category_scores[x]['score'])` over an
insertion-ordered score list: the first entry of maximal score (CPython's
`max` keeps the earliest maximum). -/
def bestBy (l : List (List Char × ℚ)) : Option (List Char × ℚ) :=
  l.foldl (fun acc x =>
    match acc with
    | none => some x
    | some b => if b.2 < x.2 then some x else some b) none

/-- Summed weight of the keywords appearing as substrings of the lowered
description (lines 84-88). -/
def descCategoryScore (kws : List (List Char)) (dl : List Char) : ℚ :=
  kws.foldl (fun acc kw => if isSubstr kw dl then qadd acc (keywordWeight kw) else acc) 0

/-- `TopicClassifier.classify_by_description` (lines 63-113). -/
def classify_by_description (cats : Cats) (description : List Char) : ClassResult :=
  let dl := lowerStr description
  let scores := cats.filterMap (fun ck =>
    if ck.1 = "general".data then none
    else
      let s := descCategoryScore ck.2 dl
      if 0 < s then some (ck.1, s) else none)
  match bestBy scores with
  | some bc => ⟨bc.1, min (qdiv bc.2 5) 1, scores, "description_keywords".data⟩
  | none => ⟨"general".data, 0, [], "default_fallback".data⟩

/-- Word-boundary test of regex `\b` between two optional adjacent
characters (out-of-text counts as non-word). -/
def wordBoundary (a b : Option Char) : Bool :=
  (match a with | none => false | some c => isWordCh c) !=
    (match b with | none => false | some c => isWordCh c)

/-- One attempt of `re` matching `\b<kw>\b` at offset `i` of `t`
(`kw` is a `re.escape`d literal). -/
def matchKwAt (kw t : List Char) (i : ℕ) : Bool :=
  litAt kw (t.drop i) &&
    wordBoundary (if i = 0 then none else t.get? (i - 1)) kw.head? &&
    wordBoundary kw.getLast? (t.get? (i + kw.length))

/-- Scanning worker for `re.finditer(\b<kw>\b)`: left-to-right,
non-overlapping (resume after each match), collecting match offsets. -/
def occPositionsAux (kw t : List Char) : ℕ → ℕ → List ℕ
  | 0, _ => []
  | fuel + 1, i =>
    if t.length ≤ i then []
    else if matchKwAt kw t i then i :: occPositionsAux kw t fuel (i + kw.length)
    else occPositionsAux kw t fuel (i + 1)

/-- Offsets of the `re.findall`/`re.finditer` matches of `\b<kw>\b` in `t`
(lines 147, 154-155); the `findall` count equals the length of this list.
The keyword lists of the table are nonempty strings; the empty-keyword guard
only keeps the scan total. -/
def occPositions (kw t : List Char) : List ℕ :=
  if kw.isEmpty then [] else occPositionsAux kw t (t.length + 1) 0

/-- Per-category accumulation of `classify_by_content` (lines 145-155):
weighted occurrence score, matched keywords, and all match positions. -/
def contentCategoryData (kws : List (List Char)) (cl : List Char) :
    ℚ × List (List Char) × List ℕ :=
  kws.foldl (fun acc kw =>
    let ps := occPositions kw cl
    if 0 < ps.length then
      (qadd acc.1 (qmul (keywordWeight kw) (ps.length : ℚ)), acc.2.1 ++ [kw], acc.2.2 ++ ps)
    else acc) (0, [], [])

/-- Sum of `(100 - distance)/100` over adjacent pairs within distance 100
(the loop of lines 216-220; the list is already sorted ascending when it is
reached, so the ℕ distance is exact). -/
def adjacentSum : List ℕ → ℚ
  | a :: b :: rest =>
    qadd (if b - a ≤ 100 then qdiv (qsub 100 ((b - a : ℕ) : ℚ)) 100 else 0)
      (adjacentSum (b :: rest))
  | _ => 0

/-- Ascending insertion step for `list.sort()`. -/
def insertAsc (x : ℕ) : List ℕ → List ℕ
  | [] => [x]
  | y :: ys => if x ≤ y then x :: y :: ys else y :: insertAsc x ys

/-- Python's `positions.sort()` (stable ascending; realized structurally so
that concrete runs reduce). -/
def sortAsc (l : List ℕ) : List ℕ := l.foldr insertAsc []

/-- `TopicClassifier._calculate_clustering_bonus` (lines 199-222).  The
`content_length` parameter is accepted and ignored, as in the source. -/
def calculate_clustering_bonus (positions : List ℕ) (_content_length : ℕ) : ℚ :=
  if positions.length < 2 then 0
  else adjacentSum (sortAsc positions)

/-- First maximum of the detailed content score list (score is the middle
component). -/
def bestByContent (l : List (List Char × ℚ × ℕ)) : Option (List Char × ℚ × ℕ) :=
  l.foldl (fun acc x =>
    match acc with
    | none => some x
    | some b => if b.2.1 < x.2.1 then some x else some b) none

/-- `TopicClassifier.classify_by_content` (lines 115-197). -/
def classify_by_content (cats : Cats) (seg : List Char) : ClassResult :=
  if seg.all isPySpace then ⟨"general".data, 0, [], "empty_content".data⟩
  else
    let cl := lowerStr seg
    let detailed : List (List Char × ℚ × ℕ) := cats.filterMap (fun ck =>
      if ck.1 = "general".data then none
      else
        let d := contentCategoryData ck.2 cl
        if 0 < d.1 then
          let density_bonus := qmul (qdiv d.1 (cl.length : ℚ)) 1000
          let cluster_bonus := calculate_clustering_bonus d.2.2 cl.length
          some (ck.1, qadd (qadd d.1 density_bonus) cluster_bonus, d.2.1.length)
        else none)
    match bestByContent detailed with
    | some b =>
      ⟨b.1, min (qmul (qdiv b.2.1 10) (qadd 1 (qmul (b.2.2 : ℚ) (mkRat 1 10)))) 1,
       detailed.map (fun x => (x.1, x.2.1)), "content_analysis".data⟩
    | none => ⟨"general".data, 0, [], "no_keywords_found".data⟩

/-- The combined classification dictionary (lines 246-276); the
`disagreement` key is present exactly when the methods disagree, which the
Boolean records. -/
structure CombinedResult where
  primary_category : List Char
  confidence_score : ℚ
  method : List Char
  disagreement : Bool
  clip_duration : ℚ
deriving DecidableEq

/-- `TopicClassifier.classify_combined` (lines 224-276). -/
def classify_combined (cats : Cats) (description seg : List Char)
    (start_time end_time : ℚ) : CombinedResult :=
  let d := classify_by_description cats description
  let c := classify_by_content cats seg
  if d.primary_category = c.primary_category then
    ⟨d.primary_category,
     min (qdiv (qadd d.confidence_score c.confidence_score) (mkRat 3 2)) 1,
     "combined_agreement".data, false, qsub end_time start_time⟩
  else if c.confidence_score < d.confidence_score then
    ⟨d.primary_category, qmul d.confidence_score (mkRat 7 10),
     "description_primary".data, true, qsub end_time start_time⟩
  else
    ⟨c.primary_category, qmul c.confidence_score (mkRat 7 10),
     "content_primary".data, true, qsub end_time start_time⟩

/-- One entry of the `get_category_suggestions` result list (lines 319-324). -/
structure Suggestion where
  category : List Char
  confidence : ℚ
  description_score : ℚ
  content_score : ℚ
deriving DecidableEq

/-- The `combined_scores` merge step for one content score entry
(lines 304-313): update the existing dict entry in place, or append a
content-only entry. -/
def mergeContentScore (acc : List (List Char × ℚ × ℚ × ℚ))
    (x : List Char × ℚ) : List (List Char × ℚ × ℚ × ℚ) :=
  if acc.any (fun e => e.1 = x.1) then
    acc.map (fun e =>
      if e.1 = x.1 then (e.1, e.2.1, x.2, qadd e.2.2.2 (qmul x.2 (mkRat 4 5))) else e)
  else acc ++ [(x.1, 0, x.2, qmul x.2 (mkRat 4 5))]

/-- Stable descending insertion (by confidence) realizing
`suggestions.sort(key=lambda x: x['confidence'], reverse=True)`. -/
def insertByConf (x : Suggestion) : List Suggestion → List Suggestion
  | [] => [x]
  | y :: ys => if y.confidence ≤ x.confidence then x :: y :: ys else y :: insertByConf x ys

/-- Stable descending sort by confidence. -/
def sortByConf (l : List Suggestion) : List Suggestion := l.foldr insertByConf []

/-- `TopicClassifier.get_category_suggestions` (lines 278-328). -/
def get_category_suggestions (cats : Cats) (description seg : List Char) :
    List Suggestion :=
  let d := classify_by_description cats description
  let c := classify_by_content cats seg
  let base := d.all_scores.map (fun e => (e.1, e.2, (0 : ℚ), qmul e.2 (mkRat 3 5)))
  let merged := c.all_scores.foldl mergeContentScore base
  let suggestions := merged.map (fun e =>
    ({ category := e.1, confidence := min (qdiv e.2.2.2 10) 1,
       description_score := e.2.1, content_score := e.2.2.1 } : Suggestion))
  (sortByConf suggestions).take 3

/-- A boundary for greedy numeral capture: nothing, or a character that can
extend neither the digit run nor the optional fraction. -/
def numBoundary (r : List Char) : Prop :=
  r = [] ∨ ∃ c cs, r = c :: cs ∧ isDigitCh c = false ∧ c ≠ '.'

/-- The oracle response echoing a pair of timestamps in the instructed format. -/
def echoText (s1 s2 : List Char) : List Char :=
  "START_TIME: ".data ++ s1 ++ " END_TIME: ".data ++ s2

/-- The two strict field captures, when both strict searches succeed. -/
def strictFields (t : List Char) : Option (List Char × List Char) :=
  match extractField "START_TIME:".data "NOT_FOUND".data t,
        extractField "END_TIME:".data "NOT_FOUND".data t with
  | some a, some b => some (a, b)
  | _, _ => none

/-- Some strict field resolved to the `NOT_FOUND` sentinel. -/
def strictSentinel (t : List Char) : Prop :=
  ∃ ab, strictFields t = some ab ∧
    (upperStr ab.1 = "NOT_FOUND".data ∨ upperStr ab.2 = "NOT_FOUND".data)

/-- The numerically coerced strict pair (when both fields are numeric). -/
def strictNums (t : List Char) : Option (ℚ × ℚ) :=
  match strictFields t with
  | some (a, b) =>
    if upperStr a = "NOT_FOUND".data ∨ upperStr b = "NOT_FOUND".data then none
    else
      match pyFloat a, pyFloat b with
      | some x, some y => some (x, y)
      | _, _ => none
  | none => none

/-- The numerically coerced fallback pair (first loose-pattern match). -/
def fallbackNums (t : List Char) : Option (ℚ × ℚ) :=
  match findPair t with
  | some (c1, c2) =>
    match pyFloat c1, pyFloat c2 with
    | some x, some y => some (x, y)
    | _, _ => none
  | none => none

/-- The claim's `NotFound` condition: a sentinel, or a coerced strict pair
with `end ≤ start`, or no route (strict or fallback) to a pair with
`end > start`. -/
def notFoundCond (t : List Char) : Prop :=
  strictSentinel t ∨
    (∃ p : ℚ × ℚ, strictNums t = some p ∧ p.2 ≤ p.1) ∨
    ((∀ p : ℚ × ℚ, strictNums t = some p → ¬p.1 < p.2) ∧
      (∀ p : ℚ × ℚ, fallbackNums t = some p → ¬p.1 < p.2))

/-- The contribution of one adjacent pair at distance `d` to the clustering
bonus, as the spec describes it. -/
def pairContribution (d : ℕ) : ℚ :=
  if d ≤ 100 then (100 - (d : ℚ)) / 100 else 0

/-- The three-part invariant of `combined_scores` entries:
`combined = desc·0.6 + content·0.8` with nonnegative partial scores. -/
def EntryInv (e : List Char × ℚ × ℚ × ℚ) : Prop :=
  e.2.2.2 = e.2.1 * (3 / 5) + e.2.2.1 * (4 / 5) ∧ 0 ≤ e.2.1 ∧ 0 ≤ e.2.2.1

/-- Modelled from the spec: `config.TOPIC_CATEGORIES` is not under `src/`.
A minimal table consistent with the spec (§4.3/§8: a `fed` category whose
keywords include the multi-word high-specificity terms `federal reserve` and
`interest rate`, single-word keywords such as the category's own name
`fed` — see also `get_category_info` in `topic_classifier.py` — and the
`general` fallback bucket, which carries no keywords). -/
def catsModel : Cats :=
  [("fed".data, ["federal reserve".data, "interest rate".data, "fed".data]),
   ("general".data, [])]

/-- An agreeing transcript segment used with `catsModel`. -/
def segModel : List Char := "federal reserve interest rate fed".data

/-! ## Properties -/

theorem toNat_ofNat_of_lt {n : ℕ} (h : n < 55296) : (Char.ofNat n).toNat = n := by
  rw [Char.ofNat, dif_pos (Or.inl h)]
  rfl

theorem char_eq_of_toNat_eq {a b : Char} (h : a.toNat = b.toNat) : a = b :=
  Char.ext (UInt32.toNat.inj h)

theorem lowerCh_of_small {c : Char} (h : c.toNat < 65) : lowerCh c = c := by
  unfold lowerCh
  rw [if_neg (by omega)]

theorem upperCh_of_small {c : Char} (h : c.toNat < 97) : upperCh c = c := by
  unfold upperCh
  rw [if_neg (by omega)]

/-- Case folding is consistent: characters that agree after lower-casing agree
after upper-casing as well. -/
theorem upperCh_eq_of_lowerCh_eq {a b : Char} (h : lowerCh a = lowerCh b) :
    upperCh a = upperCh b := by
  unfold lowerCh at h
  by_cases ha : 65 ≤ a.toNat ∧ a.toNat ≤ 90 <;> by_cases hb : 65 ≤ b.toNat ∧ b.toNat ≤ 90
  · rw [if_pos ha, if_pos hb] at h
    have h1 := congrArg Char.toNat h
    rw [toNat_ofNat_of_lt (by omega), toNat_ofNat_of_lt (by omega)] at h1
    rw [char_eq_of_toNat_eq (show a.toNat = b.toNat by omega)]
  · rw [if_pos ha, if_neg hb] at h
    have h1 := congrArg Char.toNat h
    rw [toNat_ofNat_of_lt (by omega)] at h1
    unfold upperCh
    rw [if_neg (by omega), if_pos (by omega)]
    rw [show b.toNat - 32 = a.toNat by omega, Char.ofNat_toNat]
  · rw [if_neg ha, if_pos hb] at h
    have h1 := congrArg Char.toNat h
    rw [toNat_ofNat_of_lt (by omega)] at h1
    unfold upperCh
    rw [if_pos (by omega), if_neg (by omega)]
    rw [show a.toNat - 32 = b.toNat by omega, Char.ofNat_toNat]
  · rw [if_neg ha, if_neg hb] at h
    rw [h]

theorem lowerCh_toNat_of_digit {c : Char} (h : isDigitCh c = true) : lowerCh c = c := by
  unfold isDigitCh at h
  simp only [Bool.and_eq_true, decide_eq_true_eq] at h
  exact lowerCh_of_small (by omega)

theorem upperCh_of_digit {c : Char} (h : isDigitCh c = true) : upperCh c = c := by
  unfold isDigitCh at h
  simp only [Bool.and_eq_true, decide_eq_true_eq] at h
  exact upperCh_of_small (by omega)

theorem digit_toNat_le {c : Char} (h : isDigitCh c = true) :
    48 ≤ c.toNat ∧ c.toNat ≤ 57 := by
  unfold isDigitCh at h
  simpa using h

theorem qadd_eq (a b : ℚ) : qadd a b = a + b := (Rat.add_def' a b).symm

theorem qsub_eq (a b : ℚ) : qsub a b = a - b := (Rat.sub_def' a b).symm

theorem qmul_eq (a b : ℚ) : qmul a b = a * b := by
  rw [Rat.mul_def, Rat.normalize_eq_mkRat]
  rfl

theorem qinv_eq (a : ℚ) : qinv a = a⁻¹ := (Rat.inv_def' a).symm

theorem qdiv_eq (a b : ℚ) : qdiv a b = a / b := by
  rw [qdiv, qmul_eq, qinv_eq, div_eq_mul_inv]

theorem matchLitCI_self (p rest : List Char) : matchLitCI p (p ++ rest) = some rest := by
  induction p with
  | nil => rfl
  | cons a l ih => simp [matchLitCI, ih]

theorem takeWhile_append_all {p : Char → Bool} {l : List Char} (r : List Char)
    (h : ∀ c ∈ l, p c = true) : (l ++ r).takeWhile p = l ++ r.takeWhile p := by
  induction l with
  | nil => simp
  | cons a l ih =>
    have ha : p a = true := h a (List.mem_cons_self a l)
    simp [List.takeWhile_cons, ha, ih (fun c hc => h c (List.mem_cons_of_mem a hc))]

theorem dropWhile_append_all {p : Char → Bool} {l : List Char} (r : List Char)
    (h : ∀ c ∈ l, p c = true) : (l ++ r).dropWhile p = r.dropWhile p := by
  induction l with
  | nil => simp
  | cons a l ih =>
    have ha : p a = true := h a (List.mem_cons_self a l)
    simp [List.dropWhile_cons, ha, ih (fun c hc => h c (List.mem_cons_of_mem a hc))]

theorem numLit_take_ne_nil {s : List Char} (h : isNumLit s = true) :
    (s.takeWhile isDigitCh).isEmpty = false := by
  unfold isNumLit at h
  rw [Bool.and_eq_true] at h
  simpa using h.1

theorem numLit_drop_shape {s : List Char} (h : isNumLit s = true) :
    s.dropWhile isDigitCh = [] ∨
      ∃ fs, s.dropWhile isDigitCh = '.' :: fs ∧ ∀ c ∈ fs, isDigitCh c = true := by
  unfold isNumLit at h
  rw [Bool.and_eq_true] at h
  have h2 := h.2
  cases hd : s.dropWhile isDigitCh with
  | nil => exact Or.inl rfl
  | cons c cs =>
    rw [hd] at h2
    split at h2
    · next heq => exact absurd heq (by simp)
    · next fs heq => exact Or.inr ⟨fs, heq, by simpa using h2⟩
    · simp at h2

theorem numLit_head {s : List Char} (h : isNumLit s = true) :
    ∃ d ds, s = d :: ds ∧ isDigitCh d = true := by
  cases s with
  | nil => simp [isNumLit] at h
  | cons c cs =>
    refine ⟨c, cs, rfl, ?_⟩
    by_contra hc
    have : isDigitCh c = false := Bool.not_eq_true _ |>.mp hc
    simp [isNumLit, List.takeWhile_cons, this] at h

theorem numLit_chars {s : List Char} (h : isNumLit s = true) :
    ∀ c ∈ s, isDigitCh c = true ∨ c = '.' := by
  intro c hc
  rw [← List.takeWhile_append_dropWhile (p := isDigitCh) (l := s)] at hc
  rcases List.mem_append.mp hc with h1 | h2
  · exact Or.inl (List.mem_takeWhile_imp h1)
  · rcases numLit_drop_shape h with hd | ⟨fs, hd, hfs⟩
    · rw [hd] at h2
      simp at h2
    · rw [hd] at h2
      rcases List.mem_cons.mp h2 with rfl | h3
      · exact Or.inr rfl
      · exact Or.inl (hfs c h3)

theorem numBoundary_takeWhile {r : List Char} (hr : numBoundary r) :
    r.takeWhile isDigitCh = [] := by
  rcases hr with rfl | ⟨c, cs, rfl, hc, _⟩
  · rfl
  · simp [List.takeWhile_cons, hc]

theorem numBoundary_dropWhile {r : List Char} (hr : numBoundary r) :
    r.dropWhile isDigitCh = r := by
  rcases hr with rfl | ⟨c, cs, rfl, hc, _⟩
  · rfl
  · simp [List.dropWhile_cons, hc]

theorem captureNum_exact {s r : List Char} (hs : isNumLit s = true) (hr : numBoundary r) :
    captureNum (s ++ r) = some (s, r) := by
  have htw : ∀ c ∈ s.takeWhile isDigitCh, isDigitCh c = true :=
    fun c hc => List.mem_takeWhile_imp hc
  have hsplit := List.takeWhile_append_dropWhile (p := isDigitCh) (l := s)
  rcases numLit_drop_shape hs with hd | ⟨fs, hd, hfs⟩
  · -- `s` is all digits
    have hs_eq : s.takeWhile isDigitCh = s := by
      conv_rhs => rw [← hsplit]
      rw [hd, List.append_nil]
    have hall : ∀ c ∈ s, isDigitCh c = true := hs_eq ▸ htw
    have h1 : (s ++ r).takeWhile isDigitCh = s := by
      rw [takeWhile_append_all r hall, numBoundary_takeWhile hr, List.append_nil]
    have h2 : (s ++ r).dropWhile isDigitCh = r := by
      rw [dropWhile_append_all r hall, numBoundary_dropWhile hr]
    have hne : s.isEmpty = false := hs_eq ▸ numLit_take_ne_nil hs
    simp only [captureNum, h1, h2, hne, Bool.false_eq_true, if_false]
    rcases hr with rfl | ⟨c, cs, rfl, hc, hcdot⟩
    · rfl
    · split
      · next heq =>
        rw [List.cons.injEq] at heq
        exact absurd heq.1 hcdot
      · rfl
  · -- `s = digits ++ '.' :: fraction`
    have hs_eq : s = s.takeWhile isDigitCh ++ '.' :: fs := by
      conv_lhs => rw [← hsplit]
      rw [hd]
    have hfr : (fs ++ r).takeWhile isDigitCh = fs := by
      rw [takeWhile_append_all r hfs, numBoundary_takeWhile hr, List.append_nil]
    have hfr' : (fs ++ r).dropWhile isDigitCh = r := by
      rw [dropWhile_append_all r hfs, numBoundary_dropWhile hr]
    have harr : s ++ r = s.takeWhile isDigitCh ++ '.' :: (fs ++ r) := by
      conv_lhs => rw [hs_eq]
      simp
    have h1 : (s ++ r).takeWhile isDigitCh = s.takeWhile isDigitCh := by
      rw [harr, takeWhile_append_all _ htw]
      simp [List.takeWhile_cons, show isDigitCh '.' = false from rfl]
    have h2 : (s ++ r).dropWhile isDigitCh = '.' :: (fs ++ r) := by
      rw [harr, dropWhile_append_all _ htw]
      simp [List.dropWhile_cons, show isDigitCh '.' = false from rfl]
    have hne := numLit_take_ne_nil hs
    simp only [captureNum, h1, h2, hne, Bool.false_eq_true, if_false, hfr, hfr']
    rw [← hs_eq]

theorem matchLitCI_cons_pos {p c : Char} {ps cs : List Char} (h : lowerCh p = lowerCh c) :
    matchLitCI (p :: ps) (c :: cs) = matchLitCI ps cs := by
  simp [matchLitCI, h]

theorem matchLitCI_cons_neg {p c : Char} {ps cs : List Char} (h : lowerCh p ≠ lowerCh c) :
    matchLitCI (p :: ps) (c :: cs) = none := by
  simp [matchLitCI, h]

theorem pySpace_false_of_digit {c : Char} (h : isDigitCh c = true) : isPySpace c = false := by
  have hb := digit_toNat_le h
  have hne : ∀ d : Char, d.toNat < 48 → ¬(c = d) := by
    intro d hd he
    rw [he] at hb
    omega
  unfold isPySpace
  simp [hne ' ' (by decide), hne '\t' (by decide), hne '\n' (by decide),
    hne '\r' (by decide), hne '\x0b' (by decide), hne '\x0c' (by decide)]

theorem upperStr_numLit_ne_NOT_FOUND {s : List Char} (h : isNumLit s = true) :
    upperStr s ≠ "NOT_FOUND".data := by
  obtain ⟨d, ds, rfl, hd⟩ := numLit_head h
  intro he
  have h1 : upperCh d = 'N' := by
    have := congrArg List.head? he
    simpa [upperStr] using this
  rw [upperCh_of_digit hd] at h1
  subst h1
  exact absurd hd (by decide)

theorem pyFloat_numLit {s : List Char} (h : isNumLit s = true) :
    pyFloat s = some (numVal s) := by
  simp [pyFloat, h]

theorem fieldValueAt_hit {sent s r : List Char} (hs : isNumLit s = true) (hr : numBoundary r) :
    fieldValueAt sent (s ++ r) = some s := by
  simp [fieldValueAt, captureNum_exact hs hr]

theorem dropWhile_pySpace_num {w s r : List Char} (hw : ∀ c ∈ w, isPySpace c = true)
    (hs : isNumLit s = true) : (w ++ (s ++ r)).dropWhile isPySpace = s ++ r := by
  rw [dropWhile_append_all _ hw]
  obtain ⟨d, ds, hds, hd⟩ := numLit_head hs
  rw [hds]
  simp [List.dropWhile_cons, pySpace_false_of_digit hd]

theorem matchFieldAt_hit {F sent w s r : List Char} (hw : ∀ c ∈ w, isPySpace c = true)
    (hs : isNumLit s = true) (hr : numBoundary r) :
    matchFieldAt F sent (F ++ (w ++ (s ++ r))) = some s := by
  simp [matchFieldAt, matchLitCI_self, dropWhile_pySpace_num hw hs, fieldValueAt_hit hs hr]

theorem extractField_of_matchFieldAt {F sent T v : List Char}
    (h : matchFieldAt F sent T = some v) : extractField F sent T = some v := by
  cases T with
  | nil => simpa [extractField] using h
  | cons c cs => simp [extractField, h]

theorem matchFieldAt_none_head {f c : Char} {fs sent cs : List Char}
    (h : lowerCh f ≠ lowerCh c) : matchFieldAt (f :: fs) sent (c :: cs) = none := by
  simp [matchFieldAt, matchLitCI_cons_neg h]

theorem extractField_cons_none {F sent : List Char} {c : Char} {cs : List Char}
    (h : matchFieldAt F sent (c :: cs) = none) :
    extractField F sent (c :: cs) = extractField F sent cs := by
  simp [extractField, h]

theorem extractField_skip {f : Char} {fs sent : List Char} {l : List Char} (r : List Char)
    (h : ∀ c ∈ l, lowerCh f ≠ lowerCh c) :
    extractField (f :: fs) sent (l ++ r) = extractField (f :: fs) sent r := by
  induction l with
  | nil => rfl
  | cons a l ih =>
    rw [List.cons_append,
      extractField_cons_none (matchFieldAt_none_head (h a (List.mem_cons_self a l))),
      ih (fun c hc => h c (List.mem_cons_of_mem a hc))]

theorem lowerCh_E_ne_numchar {c : Char} (h : isDigitCh c = true ∨ c = '.') :
    lowerCh 'E' ≠ lowerCh c := by
  rcases h with h | rfl
  · rw [lowerCh_toNat_of_digit h]
    have hb := digit_toNat_le h
    intro he
    rw [show lowerCh 'E' = 'e' from rfl] at he
    have h101 := congrArg Char.toNat he
    rw [show ('e' : Char).toNat = 101 from rfl] at h101
    omega
  · decide

theorem extract_start_echo {s1 s2 : List Char} (h1 : isNumLit s1 = true) :
    extractField "START_TIME:".data "NOT_FOUND".data (echoText s1 s2) = some s1 := by
  have hshape : echoText s1 s2 = "START_TIME:".data ++
      ([' '] ++ (s1 ++ (' ' :: ("END_TIME:".data ++ (' ' :: s2))))) := by
    simp only [echoText, List.append_assoc]
    rfl
  rw [hshape]
  exact extractField_of_matchFieldAt
    (matchFieldAt_hit (by decide) h1
      (Or.inr ⟨' ', _, rfl, by decide, by decide⟩))

theorem extract_end_echo {s1 s2 : List Char} (h1 : isNumLit s1 = true)
    (h2 : isNumLit s2 = true) :
    extractField "END_TIME:".data "NOT_FOUND".data (echoText s1 s2) = some s2 := by
  have hshape : echoText s1 s2 = "START_TIM".data ++
      ('E' :: ':' :: ' ' :: (s1 ++ ([' '] ++ ("END_TIME:".data ++ ([' '] ++ (s2 ++ [])))))) := by
    simp only [echoText, List.append_assoc, List.append_nil]
    rfl
  rw [hshape]
  show extractField ('E' :: "ND_TIME:".data) "NOT_FOUND".data _ = some s2
  rw [extractField_skip _ (by decide)]
  have hE : matchFieldAt ('E' :: "ND_TIME:".data) "NOT_FOUND".data
      ('E' :: ':' :: ' ' :: (s1 ++ ([' '] ++ ("END_TIME:".data ++ ([' '] ++ (s2 ++ [])))))) = none := by
    have hlit : matchLitCI ('E' :: "ND_TIME:".data)
        ('E' :: ':' :: ' ' :: (s1 ++ ([' '] ++ ("END_TIME:".data ++ ([' '] ++ (s2 ++ [])))))) = none := by
      rw [matchLitCI_cons_pos rfl]
      show matchLitCI ('N' :: "D_TIME:".data) (':' :: _) = none
      exact matchLitCI_cons_neg (by decide)
    unfold matchFieldAt
    rw [hlit]
  rw [extractField_cons_none hE]
  show extractField ('E' :: "ND_TIME:".data) "NOT_FOUND".data
    ([':', ' '] ++ (s1 ++ ([' '] ++ ("END_TIME:".data ++ ([' '] ++ (s2 ++ [])))))) = some s2
  rw [extractField_skip _ (by decide),
    extractField_skip _ (fun c hc => lowerCh_E_ne_numchar (numLit_chars h1 c hc)),
    extractField_skip _ (by decide)]
  exact extractField_of_matchFieldAt (matchFieldAt_hit (by decide) h2 (Or.inl rfl))

theorem parse_timestamp_echo {s1 s2 : List Char} (h1 : isNumLit s1 = true)
    (h2 : isNumLit s2 = true) (hlt : numVal s1 < numVal s2) :
    parse_timestamp_response (echoText s1 s2) = (some (numVal s1), some (numVal s2)) := by
  unfold parse_timestamp_response
  rw [extract_start_echo h1, extract_end_echo h1 h2]
  show (if upperStr s1 = "NOT_FOUND".data ∨ upperStr s2 = "NOT_FOUND".data then
        ((none : Option ℚ), (none : Option ℚ))
      else
        match pyFloat s1, pyFloat s2 with
        | some s, some e => if e ≤ s then (none, none) else (some s, some e)
        | _, _ => (none, none)) = (some (numVal s1), some (numVal s2))
  rw [if_neg (by
    rintro (h | h)
    · exact upperStr_numLit_ne_NOT_FOUND h1 h
    · exact upperStr_numLit_ne_NOT_FOUND h2 h)]
  rw [pyFloat_numLit h1, pyFloat_numLit h2]
  show (if numVal s2 ≤ numVal s1 then ((none : Option ℚ), (none : Option ℚ))
      else (some (numVal s1), some (numVal s2))) = (some (numVal s1), some (numVal s2))
  rw [if_neg (not_le.mpr hlt)]

theorem takeWhile_of_all {p : Char → Bool} {l : List Char} (h : ∀ c ∈ l, p c = true) :
    l.takeWhile p = l := by
  have := takeWhile_append_all (p := p) [] h
  simpa using this

theorem dropWhile_of_all {p : Char → Bool} {l : List Char} (h : ∀ c ∈ l, p c = true) :
    l.dropWhile p = [] := by
  have := dropWhile_append_all (p := p) [] h
  simpa using this

theorem captureNum_isNumLit {t cap r : List Char} (h : captureNum t = some (cap, r)) :
    isNumLit cap = true := by
  have hds : ∀ c ∈ t.takeWhile isDigitCh, isDigitCh c = true :=
    fun c hc => List.mem_takeWhile_imp hc
  simp only [captureNum] at h
  cases hhe : (t.takeWhile isDigitCh).isEmpty with
  | true => simp [hhe] at h
  | false =>
    rw [hhe] at h
    simp only [Bool.false_eq_true, if_false] at h
    split at h
    · next r2 heq =>
      rw [Option.some.injEq, Prod.mk.injEq] at h
      have hfs : ∀ c ∈ r2.takeWhile isDigitCh, isDigitCh c = true :=
        fun c hc => List.mem_takeWhile_imp hc
      rw [← h.1]
      unfold isNumLit
      rw [takeWhile_append_all _ hds]
      rw [dropWhile_append_all _ hds]
      simp only [List.takeWhile_cons, List.dropWhile_cons,
        show isDigitCh '.' = false from rfl, Bool.false_eq_true, if_false]
      simp [hhe, List.all_eq_true.mpr hfs]
    · next heq =>
      rw [Option.some.injEq, Prod.mk.injEq] at h
      rw [← h.1]
      unfold isNumLit
      rw [takeWhile_of_all hds, dropWhile_of_all hds]
      simp [hhe]

theorem matchLitCI_upperStr {p : List Char} :
    ∀ {t r : List Char}, matchLitCI p t = some r → upperStr (t.take p.length) = upperStr p := by
  induction p with
  | nil => intro t r _; rfl
  | cons pc ps ih =>
    intro t r h
    cases t with
    | nil => exact absurd h (by simp [matchLitCI])
    | cons c cs =>
      unfold matchLitCI at h
      split at h
      · next heq =>
        simp only [List.length_cons, List.take_succ_cons, upperStr, List.map_cons]
        rw [← upperStr, ← upperStr, ih h, upperCh_eq_of_lowerCh_eq heq.symm]
      · exact absurd h (by simp)

theorem fieldValueAt_shape {sent u v : List Char} (h : fieldValueAt sent u = some v) :
    isNumLit v = true ∨ upperStr v = upperStr sent := by
  unfold fieldValueAt at h
  cases hc : captureNum u with
  | some capr =>
    rw [hc] at h
    cases capr with
    | mk cap rest =>
      rw [Option.some.injEq] at h
      exact Or.inl (h ▸ captureNum_isNumLit hc)
  | none =>
    rw [hc] at h
    cases hm : matchLitCI sent u with
    | some r =>
      rw [hm] at h
      rw [Option.some.injEq] at h
      exact Or.inr (h ▸ matchLitCI_upperStr hm)
    | none => rw [hm] at h; exact absurd h (by simp)

theorem matchFieldAt_shape {F sent t v : List Char} (h : matchFieldAt F sent t = some v) :
    isNumLit v = true ∨ upperStr v = upperStr sent := by
  unfold matchFieldAt at h
  cases hm : matchLitCI F t with
  | some rest => rw [hm] at h; exact fieldValueAt_shape h
  | none => rw [hm] at h; exact absurd h (by simp)

theorem extractField_shape {F sent : List Char} :
    ∀ {t v : List Char}, extractField F sent t = some v →
      isNumLit v = true ∨ upperStr v = upperStr sent := by
  intro t
  induction t with
  | nil => exact fun h => matchFieldAt_shape h
  | cons c cs ih =>
    intro v h
    unfold extractField at h
    cases hm : matchFieldAt F sent (c :: cs) with
    | some w =>
      rw [hm] at h
      rw [Option.some.injEq] at h
      exact h ▸ matchFieldAt_shape hm
    | none => rw [hm] at h; exact ih h

theorem matchPairAt_shape {t c1 c2 : List Char} (h : matchPairAt t = some (c1, c2)) :
    isNumLit c1 = true ∧ isNumLit c2 = true := by
  unfold matchPairAt at h
  split at h
  · exact absurd h (by simp)
  · next a r1 h1 =>
    split at h
    · exact absurd h (by simp)
    · next r2 h2 =>
      split at h
      · exact absurd h (by simp)
      · next b r4 h3 =>
        split at h
        · exact absurd h (by simp)
        · next r5 h4 =>
          rw [Option.some.injEq, Prod.mk.injEq] at h
          exact ⟨h.1 ▸ captureNum_isNumLit h1, h.2 ▸ captureNum_isNumLit h3⟩

theorem findPair_shape :
    ∀ {t c1 c2 : List Char}, findPair t = some (c1, c2) →
      isNumLit c1 = true ∧ isNumLit c2 = true := by
  intro t
  induction t with
  | nil => exact fun h => matchPairAt_shape h
  | cons c cs ih =>
    intro c1 c2 h
    unfold findPair at h
    cases hm : matchPairAt (c :: cs) with
    | some w =>
      rw [hm] at h
      rw [Option.some.injEq] at h
      subst h
      exact matchPairAt_shape hm
    | none => rw [hm] at h; exact ih h

theorem parse_eq_strict {t a b : List Char}
    (ha : extractField "START_TIME:".data "NOT_FOUND".data t = some a)
    (hb : extractField "END_TIME:".data "NOT_FOUND".data t = some b) :
    parse_timestamp_response t =
      (if upperStr a = "NOT_FOUND".data ∨ upperStr b = "NOT_FOUND".data then (none, none)
       else
         match pyFloat a, pyFloat b with
         | some s, some e => if e ≤ s then (none, none) else (some s, some e)
         | _, _ => (none, none)) := by
  unfold parse_timestamp_response
  rw [ha, hb]

theorem parse_eq_fallback {t : List Char}
    (h : extractField "START_TIME:".data "NOT_FOUND".data t = none ∨
      extractField "END_TIME:".data "NOT_FOUND".data t = none) :
    parse_timestamp_response t = fallbackPair t := by
  unfold parse_timestamp_response
  cases hS : extractField "START_TIME:".data "NOT_FOUND".data t with
  | none =>
    cases hE : extractField "END_TIME:".data "NOT_FOUND".data t <;> rfl
  | some a =>
    cases hE : extractField "END_TIME:".data "NOT_FOUND".data t with
    | none => rfl
    | some b =>
      rw [hS, hE] at h
      rcases h with h | h <;> exact absurd h (by simp)

theorem strictFields_eq_some {t a b : List Char}
    (ha : extractField "START_TIME:".data "NOT_FOUND".data t = some a)
    (hb : extractField "END_TIME:".data "NOT_FOUND".data t = some b) :
    strictFields t = some (a, b) := by
  unfold strictFields
  rw [ha, hb]

theorem strictFields_eq_none {t : List Char}
    (h : extractField "START_TIME:".data "NOT_FOUND".data t = none ∨
      extractField "END_TIME:".data "NOT_FOUND".data t = none) :
    strictFields t = none := by
  unfold strictFields
  cases hS : extractField "START_TIME:".data "NOT_FOUND".data t with
  | none =>
    cases hE : extractField "END_TIME:".data "NOT_FOUND".data t <;> rfl
  | some a =>
    cases hE : extractField "END_TIME:".data "NOT_FOUND".data t with
    | none => rfl
    | some b =>
      rw [hS, hE] at h
      rcases h with h | h <;> exact absurd h (by simp)

theorem foldl_pick_mem {α : Type} {f : Option α → α → Option α}
    (hf : ∀ acc x, f acc x = some x ∨ f acc x = acc) :
    ∀ (l : List α) (acc : Option α) (y : α), l.foldl f acc = some y → y ∈ l ∨ acc = some y := by
  intro l
  induction l with
  | nil => exact fun acc y h => Or.inr h
  | cons a l ih =>
    intro acc y h
    rcases ih (f acc a) y h with h1 | h2
    · exact Or.inl (List.mem_cons_of_mem a h1)
    · rcases hf acc a with h3 | h3
      · rw [h3] at h2
        cases Option.some.inj h2
        exact Or.inl (List.mem_cons_self a l)
      · rw [h3] at h2
        exact Or.inr h2

theorem bestBy_mem {l : List (List Char × ℚ)} {x : List Char × ℚ} (h : bestBy l = some x) :
    x ∈ l := by
  unfold bestBy at h
  have := foldl_pick_mem (f := fun acc x =>
      match acc with
      | none => some x
      | some b => if b.2 < x.2 then some x else some b)
    (by
      intro acc x
      cases acc with
      | none => exact Or.inl rfl
      | some b =>
        by_cases hlt : b.2 < x.2
        · exact Or.inl (by simp [hlt])
        · exact Or.inr (by simp [hlt]))
    l none x h
  rcases this with h1 | h2
  · exact h1
  · exact absurd h2 (by simp)

theorem bestByContent_mem {l : List (List Char × ℚ × ℕ)} {x : List Char × ℚ × ℕ}
    (h : bestByContent l = some x) : x ∈ l := by
  unfold bestByContent at h
  have := foldl_pick_mem (f := fun acc x =>
      match acc with
      | none => some x
      | some b => if b.2.1 < x.2.1 then some x else some b)
    (by
      intro acc x
      cases acc with
      | none => exact Or.inl rfl
      | some b =>
        by_cases hlt : b.2.1 < x.2.1
        · exact Or.inl (by simp [hlt])
        · exact Or.inr (by simp [hlt]))
    l none x h
  rcases this with h1 | h2
  · exact h1
  · exact absurd h2 (by simp)

theorem desc_scores_pos {cats : Cats} {dl : List Char} {x : List Char × ℚ}
    (h : x ∈ cats.filterMap (fun ck =>
      if ck.1 = "general".data then none
      else
        let s := descCategoryScore ck.2 dl
        if 0 < s then some (ck.1, s) else none)) : 0 < x.2 := by
  obtain ⟨ck, _, hfk⟩ := List.mem_filterMap.mp h
  by_cases hg : ck.1 = "general".data
  · simp [hg] at hfk
  · simp only [hg, if_false] at hfk
    by_cases hs : 0 < descCategoryScore ck.2 dl
    · simp only [hs, if_true, Option.some.injEq] at hfk
      rw [← hfk]
      exact hs
    · simp [hs] at hfk

theorem adjacentSum_nonneg : ∀ l : List ℕ, 0 ≤ adjacentSum l := by
  intro l
  induction l with
  | nil => exact le_refl 0
  | cons a l ih =>
    cases l with
    | nil => exact le_refl 0
    | cons b rest =>
      show 0 ≤ adjacentSum (a :: b :: rest)
      unfold adjacentSum
      rw [qadd_eq]
      have hterm : 0 ≤ (if b - a ≤ 100 then qdiv (qsub 100 ((b - a : ℕ) : ℚ)) 100 else 0) := by
        split
        · next hle =>
          rw [qdiv_eq, qsub_eq]
          have h1 : ((b - a : ℕ) : ℚ) ≤ 100 := by exact_mod_cast hle
          have h2 : (0 : ℚ) ≤ 100 - ((b - a : ℕ) : ℚ) := by linarith
          exact div_nonneg h2 (by norm_num)
        · exact le_refl 0
      exact add_nonneg hterm ih

theorem clustering_nonneg (ps : List ℕ) (n : ℕ) : 0 ≤ calculate_clustering_bonus ps n := by
  unfold calculate_clustering_bonus
  split
  · exact le_refl 0
  · exact adjacentSum_nonneg _

theorem content_scores_pos {cats : Cats} {cl : List Char} {x : List Char × ℚ × ℕ}
    (h : x ∈ cats.filterMap (fun ck =>
      if ck.1 = "general".data then none
      else
        let d := contentCategoryData ck.2 cl
        if 0 < d.1 then
          let density_bonus := qmul (qdiv d.1 (cl.length : ℚ)) 1000
          let cluster_bonus := calculate_clustering_bonus d.2.2 cl.length
          some (ck.1, qadd (qadd d.1 density_bonus) cluster_bonus, d.2.1.length)
        else none)) : 0 < x.2.1 := by
  obtain ⟨ck, _, hfk⟩ := List.mem_filterMap.mp h
  by_cases hg : ck.1 = "general".data
  · simp [hg] at hfk
  · simp only [hg, if_false] at hfk
    by_cases hs : 0 < (contentCategoryData ck.2 cl).1
    · simp only [hs, if_true, Option.some.injEq] at hfk
      rw [← hfk]
      show 0 < qadd (qadd (contentCategoryData ck.2 cl).1 _) _
      rw [qadd_eq, qadd_eq, qmul_eq, qdiv_eq]
      have hd : (0 : ℚ) ≤ (contentCategoryData ck.2 cl).1 / (cl.length : ℚ) * 1000 := by
        have := le_of_lt hs
        positivity
      have hc := clustering_nonneg (contentCategoryData ck.2 cl).2.2 cl.length
      linarith
    · simp [hs] at hfk

theorem mkRat_one_ten : (mkRat 1 10 : ℚ) = 1 / 10 := by
  rw [Rat.mkRat_eq_div]
  norm_num

theorem mkRat_three_two : (mkRat 3 2 : ℚ) = 3 / 2 := by
  rw [Rat.mkRat_eq_div]
  norm_num

theorem mkRat_seven_ten : (mkRat 7 10 : ℚ) = 7 / 10 := by
  rw [Rat.mkRat_eq_div]
  norm_num

theorem mkRat_three_five : (mkRat 3 5 : ℚ) = 3 / 5 := by
  rw [Rat.mkRat_eq_div]
  norm_num

theorem mkRat_four_five : (mkRat 4 5 : ℚ) = 4 / 5 := by
  rw [Rat.mkRat_eq_div]
  norm_num

/-- Confidence facts for `classify_by_description`: nonnegative, at most 1,
and positive whenever a non-`general` category was chosen. -/
theorem classify_by_description_conf (cats : Cats) (d : List Char) :
    0 ≤ (classify_by_description cats d).confidence_score ∧
      (classify_by_description cats d).confidence_score ≤ 1 ∧
      ((classify_by_description cats d).primary_category ≠ "general".data →
        0 < (classify_by_description cats d).confidence_score) := by
  simp only [classify_by_description]
  split
  · next bc hb =>
    have hpos : 0 < bc.2 := desc_scores_pos (bestBy_mem hb)
    have hpos5 : 0 < qdiv bc.2 5 := by
      rw [qdiv_eq]
      positivity
    refine ⟨?_, ?_, fun _ => ?_⟩
    · exact le_min (le_of_lt hpos5) (by norm_num)
    · exact min_le_right _ _
    · exact lt_min hpos5 (by norm_num)
  · exact ⟨le_refl 0, by norm_num, fun h => absurd rfl h⟩

/-- Confidence facts for `classify_by_content`. -/
theorem classify_by_content_conf (cats : Cats) (seg : List Char) :
    0 ≤ (classify_by_content cats seg).confidence_score ∧
      (classify_by_content cats seg).confidence_score ≤ 1 ∧
      ((classify_by_content cats seg).primary_category ≠ "general".data →
        0 < (classify_by_content cats seg).confidence_score) := by
  simp only [classify_by_content]
  split
  · exact ⟨le_refl 0, by norm_num, fun h => absurd rfl h⟩
  · split
    · next b hb =>
      have hpos : 0 < b.2.1 := content_scores_pos (bestByContent_mem hb)
      have hconf : 0 < qmul (qdiv b.2.1 10) (qadd 1 (qmul (b.2.2 : ℚ) (mkRat 1 10))) := by
        rw [qmul_eq, qdiv_eq, qadd_eq, qmul_eq, mkRat_one_ten]
        have hk : (0 : ℚ) ≤ (b.2.2 : ℚ) := Nat.cast_nonneg _
        positivity
      refine ⟨?_, ?_, fun _ => ?_⟩
      · exact le_min (le_of_lt hconf) (by norm_num)
      · exact min_le_right _ _
      · exact lt_min hconf (by norm_num)
    · exact ⟨le_refl 0, by norm_num, fun h => absurd rfl h⟩

theorem insertAsc_perm (x : ℕ) (l : List ℕ) : List.Perm (insertAsc x l) (x :: l) := by
  induction l with
  | nil => exact List.Perm.refl _
  | cons y ys ih =>
    unfold insertAsc
    split
    · exact List.Perm.refl _
    · exact (List.Perm.cons y ih).trans (List.Perm.swap x y ys)

theorem sortAsc_perm (l : List ℕ) : List.Perm (sortAsc l) l := by
  induction l with
  | nil => exact List.Perm.refl _
  | cons a l ih => exact (insertAsc_perm a (sortAsc l)).trans (List.Perm.cons a ih)

theorem insertAsc_sorted {x : ℕ} {l : List ℕ} (h : l.Pairwise (· ≤ ·)) :
    (insertAsc x l).Pairwise (· ≤ ·) := by
  induction l with
  | nil => simp [insertAsc]
  | cons y ys ih =>
    unfold insertAsc
    split
    · next hxy =>
      exact List.Pairwise.cons
        (fun z hz => by
          rcases List.mem_cons.mp hz with rfl | hz'
          · exact hxy
          · exact le_trans hxy (List.rel_of_pairwise_cons h hz')) h
    · next hxy =>
      have hyx : y ≤ x := le_of_not_le hxy
      refine List.Pairwise.cons (fun z hz => ?_) (ih (List.Pairwise.of_cons h))
      rcases List.mem_cons.mp ((insertAsc_perm x ys).mem_iff.mp hz) with rfl | hz'
      · exact hyx
      · exact List.rel_of_pairwise_cons h hz'

theorem sortAsc_sorted (l : List ℕ) : (sortAsc l).Pairwise (· ≤ ·) := by
  induction l with
  | nil => exact List.Pairwise.nil
  | cons a l ih => exact insertAsc_sorted ih

theorem adjacentSum_eq_pairSum : ∀ l : List ℕ,
    adjacentSum l = (l.zip l.tail).foldr (fun q acc => pairContribution (q.2 - q.1) + acc) 0 := by
  intro l
  induction l with
  | nil => rfl
  | cons a l ih =>
    cases l with
    | nil => rfl
    | cons b rest =>
      show adjacentSum (a :: b :: rest) = _
      unfold adjacentSum
      rw [qadd_eq, ih]
      simp only [List.zip_cons_cons, List.tail_cons, List.foldr_cons]
      congr 1
      unfold pairContribution
      split
      · rw [qdiv_eq, qsub_eq]
      · rfl

theorem mem_insertByConf {z x : Suggestion} {l : List Suggestion}
    (h : z ∈ insertByConf x l) : z = x ∨ z ∈ l := by
  induction l with
  | nil => simpa [insertByConf] using h
  | cons y ys ih =>
    unfold insertByConf at h
    split at h
    · rcases List.mem_cons.mp h with rfl | h'
      · exact Or.inl rfl
      · exact Or.inr h'
    · rcases List.mem_cons.mp h with rfl | h'
      · exact Or.inr (List.mem_cons_self _ _)
      · rcases ih h' with h'' | h''
        · exact Or.inl h''
        · exact Or.inr (List.mem_cons_of_mem _ h'')

theorem insertByConf_sorted {x : Suggestion} {l : List Suggestion}
    (h : l.Pairwise (fun a b => b.confidence ≤ a.confidence)) :
    (insertByConf x l).Pairwise (fun a b => b.confidence ≤ a.confidence) := by
  induction l with
  | nil => simp [insertByConf]
  | cons y ys ih =>
    unfold insertByConf
    split
    · next hxy =>
      exact List.Pairwise.cons
        (fun z hz => by
          rcases List.mem_cons.mp hz with rfl | hz'
          · exact hxy
          · exact le_trans (List.rel_of_pairwise_cons h hz') hxy) h
    · next hxy =>
      have hyx : x.confidence ≤ y.confidence := le_of_not_le hxy
      refine List.Pairwise.cons (fun z hz => ?_) (ih (List.Pairwise.of_cons h))
      rcases mem_insertByConf hz with rfl | hz'
      · exact hyx
      · exact List.rel_of_pairwise_cons h hz'

theorem sortByConf_sorted (l : List Suggestion) :
    (sortByConf l).Pairwise (fun a b => b.confidence ≤ a.confidence) := by
  induction l with
  | nil => exact List.Pairwise.nil
  | cons a l ih => exact insertByConf_sorted ih

theorem sortByConf_perm (l : List Suggestion) : List.Perm (sortByConf l) l := by
  induction l with
  | nil => exact List.Perm.refl _
  | cons a l ih =>
    have hins : ∀ (x : Suggestion) (m : List Suggestion), List.Perm (insertByConf x m) (x :: m) := by
      intro x m
      induction m with
      | nil => exact List.Perm.refl _
      | cons y ys ihy =>
        unfold insertByConf
        split
        · exact List.Perm.refl _
        · exact (List.Perm.cons y ihy).trans (List.Perm.swap x y ys)
    exact (hins a (sortByConf l)).trans (List.Perm.cons a ih)

theorem map_fst_filterMap_sublist {α β : Type} {f : (List Char × α) → Option (List Char × β)}
    (hf : ∀ ck y, f ck = some y → y.1 = ck.1) :
    ∀ l : List (List Char × α),
      List.Sublist ((l.filterMap f).map Prod.fst) (l.map Prod.fst) := by
  intro l
  induction l with
  | nil => simp
  | cons a l ih =>
    cases hfa : f a with
    | none => simpa [List.filterMap_cons, hfa] using List.Sublist.cons a.1 ih
    | some y =>
      simp only [List.filterMap_cons, hfa, List.map_cons, hf a y hfa]
      exact List.Sublist.cons₂ a.1 ih

theorem mergeContentScore_inv {acc : List (List Char × ℚ × ℚ × ℚ)} {x : List Char × ℚ}
    (hinv : ∀ e ∈ acc, EntryInv e)
    (hmark : ∀ e ∈ acc, e.2.2.1 ≠ 0 → e.1 ≠ x.1)
    (hx : 0 ≤ x.2) :
    ∀ e ∈ mergeContentScore acc x, EntryInv e := by
  intro e he
  unfold mergeContentScore at he
  split at he
  · obtain ⟨a, ha, hae⟩ := List.mem_map.mp he
    by_cases hax : a.1 = x.1
    · rw [if_pos hax] at hae
      have hcs0 : a.2.2.1 = 0 := by
        by_contra hne
        exact hmark a ha hne hax
      obtain ⟨hc, hd, _⟩ := hinv a ha
      rw [← hae]
      refine ⟨?_, hd, hx⟩
      show qadd a.2.2.2 (qmul x.2 (mkRat 4 5)) = a.2.1 * (3 / 5) + x.2 * (4 / 5)
      rw [qadd_eq, qmul_eq, mkRat_four_five, hc, hcs0]
      ring
    · rw [if_neg hax] at hae
      exact hae ▸ hinv a ha
  · rcases List.mem_append.mp he with ha | hb
    · exact hinv e ha
    · have : e = (x.1, 0, x.2, qmul x.2 (mkRat 4 5)) := by simpa using hb
      rw [this]
      refine ⟨?_, le_refl 0, hx⟩
      show qmul x.2 (mkRat 4 5) = 0 * (3 / 5) + x.2 * (4 / 5)
      rw [qmul_eq, mkRat_four_five]
      ring

theorem mergeContentScore_mark (keys : List (List Char))
    {acc : List (List Char × ℚ × ℚ × ℚ)} {x : List Char × ℚ}
    (hmark : ∀ e ∈ acc, e.2.2.1 ≠ 0 → e.1 ∉ (x.1 :: keys))
    (hxk : x.1 ∉ keys) :
    ∀ e ∈ mergeContentScore acc x, e.2.2.1 ≠ 0 → e.1 ∉ keys := by
  intro e he hne
  unfold mergeContentScore at he
  split at he
  · obtain ⟨a, ha, hae⟩ := List.mem_map.mp he
    by_cases hax : a.1 = x.1
    · rw [if_pos hax] at hae
      rw [← hae]
      show a.1 ∉ keys
      rw [hax]
      exact hxk
    · rw [if_neg hax] at hae
      rw [← hae] at hne ⊢
      exact fun hk => hmark a ha hne (List.mem_cons_of_mem _ hk)
  · rcases List.mem_append.mp he with ha | hb
    · exact fun hk => hmark e ha hne (List.mem_cons_of_mem _ hk)
    · have : e = (x.1, 0, x.2, qmul x.2 (mkRat 4 5)) := by simpa using hb
      rw [this]
      exact hxk

theorem foldl_merge_inv :
    ∀ (cl : List (List Char × ℚ)) (acc : List (List Char × ℚ × ℚ × ℚ)),
      (∀ e ∈ acc, EntryInv e) →
      (∀ e ∈ acc, e.2.2.1 ≠ 0 → e.1 ∉ cl.map Prod.fst) →
      (∀ x ∈ cl, 0 ≤ x.2) →
      (cl.map Prod.fst).Nodup →
      ∀ e ∈ cl.foldl mergeContentScore acc, EntryInv e := by
  intro cl
  induction cl with
  | nil => exact fun acc hinv _ _ _ => hinv
  | cons x xs ih =>
    intro acc hinv hmark hpos hnd
    simp only [List.foldl_cons]
    simp only [List.map_cons, List.nodup_cons] at hnd
    refine ih (mergeContentScore acc x)
      (mergeContentScore_inv hinv
        (fun e he hne hax => hmark e he hne (hax ▸ List.mem_cons_self _ _))
        (hpos x (List.mem_cons_self _ _)))
      (mergeContentScore_mark (xs.map Prod.fst)
        (fun e he hne => by simpa using hmark e he hne) hnd.1)
      (fun y hy => hpos y (List.mem_cons_of_mem _ hy)) hnd.2

theorem desc_all_scores_pos (cats : Cats) (d : List Char) :
    ∀ x ∈ (classify_by_description cats d).all_scores, 0 < x.2 := by
  simp only [classify_by_description]
  split
  · exact fun x hx => desc_scores_pos hx
  · simp

theorem content_all_scores_pos (cats : Cats) (seg : List Char) :
    ∀ x ∈ (classify_by_content cats seg).all_scores, 0 < x.2 := by
  simp only [classify_by_content]
  split
  · simp
  · split
    · intro x hx
      obtain ⟨y, hy, hyx⟩ := List.mem_map.mp hx
      rw [← hyx]
      exact content_scores_pos hy
    · simp

theorem desc_all_scores_keys (cats : Cats) (d : List Char) :
    List.Sublist ((classify_by_description cats d).all_scores.map Prod.fst)
      (cats.map Prod.fst) := by
  simp only [classify_by_description]
  split
  · refine map_fst_filterMap_sublist ?_ cats
    intro ck y h
    by_cases hg : ck.1 = "general".data
    · simp [hg] at h
    · simp only [hg, if_false] at h
      by_cases hs : 0 < descCategoryScore ck.2 (lowerStr d)
      · simp only [hs, if_true, Option.some.injEq] at h
        rw [← h]
      · simp [hs] at h
  · simp

theorem content_all_scores_keys (cats : Cats) (seg : List Char) :
    List.Sublist ((classify_by_content cats seg).all_scores.map Prod.fst)
      (cats.map Prod.fst) := by
  simp only [classify_by_content]
  split
  · simp
  · split
    · rw [List.map_map]
      have hcomp : (Prod.fst ∘ (fun x : List Char × ℚ × ℕ => (x.1, x.2.1))) =
          (Prod.fst : List Char × ℚ × ℕ → List Char) := rfl
      rw [hcomp]
      refine map_fst_filterMap_sublist ?_ cats
      intro ck y h
      by_cases hg : ck.1 = "general".data
      · simp [hg] at h
      · simp only [hg, if_false] at h
        by_cases hs : 0 < (contentCategoryData ck.2 (lowerStr seg)).1
        · simp only [hs, if_true, Option.some.injEq] at h
          rw [← h]
        · simp [hs] at h
    · simp

/-! ## Claims -/

/-- C1: for every pair of echoed decimal literals with `0 ≤ start < end`,
when the oracle response text is exactly `START_TIME: start END_TIME: end`,
`find_clip_timestamps` returns `(start, end)` unchanged — for every value of
the target-duration-band predicate, which only feeds a logged advisory and
never alters or blocks the returned pair. -/
theorem claim_C1_echo_resolution (durOk : ℚ → Bool) (s1 s2 : List Char)
    (h1 : isNumLit s1 = true) (h2 : isNumLit s2 = true)
    (_h0 : 0 ≤ numVal s1) (hlt : numVal s1 < numVal s2) :
    find_clip_timestamps durOk (.ok (echoText s1 s2)) =
      .ok (some (numVal s1), some (numVal s2)) := by
  simp only [find_clip_timestamps, parse_timestamp_echo h1 h2 hlt]

theorem claim_C1_echo_resolution_witness :
    find_clip_timestamps (fun _ => false) (.ok (echoText "245.5".data "298.2".data)) =
      .ok (some (mkRat 491 2), some (mkRat 1491 5)) := by
  have h := claim_C1_echo_resolution (fun _ => false) "245.5".data "298.2".data
    (by decide) (by decide) (by decide) (by decide)
  rw [h]
  decide

/-- C3: `find_clip_timestamps` raises `ClipExtractionError` exactly on oracle
transport failure; whenever the oracle returns a response text the call
returns normally, and any parse failure yields the `NotFound` pair
`(none, none)` rather than an exception. -/
theorem claim_C3_hard_failure_only (durOk : ℚ → Bool) :
    (∀ e : OracleErr, find_clip_timestamps durOk (.error e) =
      .error (.extraction ("OpenAI API error: ".data ++ e.msg))) ∧
    (∀ text : List Char, ∃ p, find_clip_timestamps durOk (.ok text) = .ok p) ∧
    (∀ text, parse_timestamp_response text = (none, none) →
      find_clip_timestamps durOk (.ok text) = .ok (none, none)) ∧
    (∀ resp err, find_clip_timestamps durOk resp = .error err →
      ∃ e : OracleErr, resp = .error e) := by
  refine ⟨fun e => rfl, fun text => ?_, fun text hp => ?_, fun resp err h => ?_⟩
  · simp only [find_clip_timestamps]
    rcases hp : parse_timestamp_response text with ⟨a, b⟩
    cases a <;> cases b <;> exact ⟨_, rfl⟩
  · simp only [find_clip_timestamps]
    rw [hp]
  · cases resp with
    | error e => exact ⟨e, rfl⟩
    | ok text =>
      simp only [find_clip_timestamps] at h
      rcases hp : parse_timestamp_response text with ⟨a, b⟩
      rw [hp] at h
      cases a <;> cases b <;> exact absurd h (by simp)

theorem claim_C3_hard_failure_only_witness :
    find_clip_timestamps (fun _ => true) (.error ⟨"boom".data⟩) =
        .error (.extraction "OpenAI API error: boom".data) ∧
      find_clip_timestamps (fun _ => true) (.ok "no timestamps here".data) = .ok (none, none) := by
  have h := claim_C3_hard_failure_only (fun _ => true)
  exact ⟨by rw [h.1 ⟨"boom".data⟩]; decide, h.2.2.1 "no timestamps here".data (by decide)⟩

/-- C6: the loose fallback pattern is consulted exactly when the strict field
search fails: with both strict fields found the result is the strict
resolution alone, with either field missing it is the fallback-pattern
result; and the spec's example text
`"the clip runs from 12.5 seconds to 45.0 seconds"` yields `(12.5, 45.0)`. -/
theorem claim_C6_fallback_only_on_strict_failure (t a b : List Char) :
    (extractField "START_TIME:".data "NOT_FOUND".data t = some a →
      extractField "END_TIME:".data "NOT_FOUND".data t = some b →
      parse_timestamp_response t =
        (if upperStr a = "NOT_FOUND".data ∨ upperStr b = "NOT_FOUND".data then (none, none)
         else
           match pyFloat a, pyFloat b with
           | some s, some e => if e ≤ s then (none, none) else (some s, some e)
           | _, _ => (none, none))) ∧
    ((extractField "START_TIME:".data "NOT_FOUND".data t = none ∨
        extractField "END_TIME:".data "NOT_FOUND".data t = none) →
      parse_timestamp_response t = fallbackPair t) ∧
    parse_timestamp_response "the clip runs from 12.5 seconds to 45.0 seconds".data =
      (some (mkRat 25 2), some 45) :=
  ⟨parse_eq_strict, parse_eq_fallback, by decide⟩

theorem claim_C6_fallback_witness :
    parse_timestamp_response "the clip runs from 12.5 seconds to 45.0 seconds".data =
      fallbackPair "the clip runs from 12.5 seconds to 45.0 seconds".data :=
  (claim_C6_fallback_only_on_strict_failure
    "the clip runs from 12.5 seconds to 45.0 seconds".data [] []).2.1 (Or.inl (by decide))

/-- C10: a result item's `duration` is `end - start` only when both
timestamps are Python-truthy; a successful resolution with
`start_time = 0.0` (falsy) reports `success = true` and `duration = none`,
as the concrete batch run shows. -/
theorem claim_C10_duration_truthiness :
    (∀ (durOk : ℚ → Bool) (resp : Except OracleErr (List Char)) (d : List Char) (s e : ℚ),
      find_clip_timestamps durOk resp = .ok (some s, some e) →
        (clipItemFor durOk resp d).success = true ∧
          (clipItemFor durOk resp d).duration =
            (if s ≠ 0 ∧ e ≠ 0 then some (qsub e s) else none)) ∧
    find_multiple_clips (fun _ => .ok "START_TIME: 0 END_TIME: 5".data) (fun _ => true)
        ["clip".data] =
      [{ description := "clip".data, start_time := some 0, end_time := some 5,
         duration := none, success := true, error := none }] := by
  constructor
  · intro durOk resp d s e h
    unfold clipItemFor
    rw [h]
    refine ⟨rfl, ?_⟩
    show (if truthyF (some s) && truthyF (some e) then some (qsub e s) else none) = _
    by_cases hs : s = 0 <;> by_cases he : e = 0 <;>
      simp [truthyF, hs, he]
  · decide

theorem claim_C10_duration_truthiness_witness :
    (clipItemFor (fun _ => true) (.ok "START_TIME: 1 END_TIME: 3".data) "d".data).success
        = true ∧
      (clipItemFor (fun _ => true) (.ok "START_TIME: 1 END_TIME: 3".data) "d".data).duration =
        (if (1 : ℚ) ≠ 0 ∧ (3 : ℚ) ≠ 0 then some (qsub 3 1) else none) :=
  claim_C10_duration_truthiness.1 (fun _ => true) (.ok "START_TIME: 1 END_TIME: 3".data)
    "d".data 1 3 (by decide)

theorem clipItemFor_description (durOk : ℚ → Bool) (resp : Except OracleErr (List Char))
    (d : List Char) : (clipItemFor durOk resp d).description = d := by
  unfold clipItemFor
  rcases h : find_clip_timestamps durOk resp with err | p
  · cases err
    rfl
  · rcases p with ⟨s, e⟩
    rfl

/-- C7: `find_multiple_clips` returns exactly one result per description, in
input order, each carrying its description; item `i` is a function of its own
description and oracle outcome alone (so a failure elsewhere cannot affect
it), and an oracle transport failure on item `i` is caught and recorded in
that item as `success = false` with the error message. -/
theorem claim_C7_batch_isolation
    (oracle : List Char → Except OracleErr (List Char)) (durOk : ℚ → Bool)
    (descs : List (List Char)) :
    (find_multiple_clips oracle durOk descs).length = descs.length ∧
    (∀ i (h : i < descs.length),
      (find_multiple_clips oracle durOk descs).get ⟨i, by simpa [find_multiple_clips] using h⟩ =
        clipItemFor durOk (oracle (descs.get ⟨i, h⟩)) (descs.get ⟨i, h⟩)) ∧
    (∀ i (h : i < descs.length),
      ((find_multiple_clips oracle durOk descs).get
          ⟨i, by simpa [find_multiple_clips] using h⟩).description = descs.get ⟨i, h⟩) ∧
    (∀ i (h : i < descs.length) (m : OracleErr), oracle (descs.get ⟨i, h⟩) = .error m →
      (find_multiple_clips oracle durOk descs).get ⟨i, by simpa [find_multiple_clips] using h⟩ =
        { description := descs.get ⟨i, h⟩, start_time := none, end_time := none,
          duration := none, success := false,
          error := some ("OpenAI API error: ".data ++ m.msg) }) ∧
    (∀ (oracle' : List Char → Except OracleErr (List Char)) i (h : i < descs.length),
      oracle (descs.get ⟨i, h⟩) = oracle' (descs.get ⟨i, h⟩) →
      (find_multiple_clips oracle durOk descs).get ⟨i, by simpa [find_multiple_clips] using h⟩ =
        (find_multiple_clips oracle' durOk descs).get
          ⟨i, by simpa [find_multiple_clips] using h⟩) := by
  have hitem : ∀ i (h : i < descs.length),
      (find_multiple_clips oracle durOk descs).get ⟨i, by simpa [find_multiple_clips] using h⟩ =
        clipItemFor durOk (oracle (descs.get ⟨i, h⟩)) (descs.get ⟨i, h⟩) := by
    intro i h
    simp [find_multiple_clips]
  refine ⟨by simp [find_multiple_clips], hitem, ?_, ?_, ?_⟩
  · intro i h
    rw [hitem i h]
    exact clipItemFor_description ..
  · intro i h m hm
    rw [hitem i h, hm]
    rfl
  · intro oracle' i h heq
    rw [hitem i h, heq]
    have hitem' : ∀ i (h : i < descs.length),
        (find_multiple_clips oracle' durOk descs).get
            ⟨i, by simpa [find_multiple_clips] using h⟩ =
          clipItemFor durOk (oracle' (descs.get ⟨i, h⟩)) (descs.get ⟨i, h⟩) := by
      intro i h
      simp [find_multiple_clips]
    rw [hitem' i h]

theorem claim_C7_batch_isolation_witness :
    (find_multiple_clips
        (fun d => if d = "b".data then .error ⟨"x".data⟩
          else .ok "START_TIME: 1 END_TIME: 2".data)
        (fun _ => true) ["a".data, "b".data, "c".data]).get ⟨1, by decide⟩ =
      { description := "b".data, start_time := none, end_time := none,
        duration := none, success := false,
        error := some ("OpenAI API error: ".data ++ "x".data) } :=
  (claim_C7_batch_isolation
    (fun d => if d = "b".data then .error ⟨"x".data⟩ else .ok "START_TIME: 1 END_TIME: 2".data)
    (fun _ => true) ["a".data, "b".data, "c".data]).2.2.2.1 1 (by decide) ⟨"x".data⟩ (by decide)

/-- C5 counterexample: the claim says every result of
`suggest_clip_improvements` reports whether anything changed, but the
oracle-failure fallback dictionary (clip_finder.py lines 351-356) carries no
`changed` key at all. -/
theorem claim_C5_counterexample :
    ((suggest_clip_improvements (.error ⟨"timeout".data⟩) 10 20).changed).isSome = false := by
  decide

/-- C5 (amended): `suggest_clip_improvements` is total; on oracle failure it
degrades to the original `(start, end)` with `LOW` confidence — but omits
the `changed` key; every parsed response reports whether anything changed;
each suggested boundary defaults to the original value when its field is
absent, is the `KEEP_CURRENT` sentinel, or fails numeric coercion; and the
confidence tier defaults to `MEDIUM` when absent. -/
theorem claim_C5_amended (start_time end_time : ℚ) :
    (∀ e : OracleErr, suggest_clip_improvements (.error e) start_time end_time =
      { suggested_start := start_time, suggested_end := end_time,
        improvement_reason := "Could not analyze improvements".data,
        confidence := "LOW".data, changed := none }) ∧
    (∀ text, suggest_clip_improvements (.ok text) start_time end_time =
      parse_improvement_response text start_time end_time) ∧
    (∀ text, (parse_improvement_response text start_time end_time).changed =
      some (decide
        ((parse_improvement_response text start_time end_time).suggested_start ≠ start_time ∨
          (parse_improvement_response text start_time end_time).suggested_end ≠ end_time))) ∧
    (∀ text, extractField "SUGGESTED_START:".data "KEEP_CURRENT".data text = none →
      (parse_improvement_response text start_time end_time).suggested_start = start_time) ∧
    (∀ text raw, extractField "SUGGESTED_START:".data "KEEP_CURRENT".data text = some raw →
      upperStr raw = "KEEP_CURRENT".data ∨ pyFloat raw = none →
      (parse_improvement_response text start_time end_time).suggested_start = start_time) ∧
    (∀ text, extractField "SUGGESTED_END:".data "KEEP_CURRENT".data text = none →
      (parse_improvement_response text start_time end_time).suggested_end = end_time) ∧
    (∀ text raw, extractField "SUGGESTED_END:".data "KEEP_CURRENT".data text = some raw →
      upperStr raw = "KEEP_CURRENT".data ∨ pyFloat raw = none →
      (parse_improvement_response text start_time end_time).suggested_end = end_time) ∧
    (∀ text, extractConfidence text = none →
      (parse_improvement_response text start_time end_time).confidence = "MEDIUM".data) := by
  have hsugg : ∀ field text (orig : ℚ) raw,
      extractField field "KEEP_CURRENT".data text = some raw →
      upperStr raw = "KEEP_CURRENT".data ∨ pyFloat raw = none →
      suggestedTime field text orig = orig := by
    intro field text orig raw hraw hdef
    unfold suggestedTime
    rw [hraw]
    show (if upperStr raw = "KEEP_CURRENT".data then orig else (pyFloat raw).getD orig) = orig
    rcases hdef with hks | hnum
    · rw [if_pos hks]
    · by_cases hks : upperStr raw = "KEEP_CURRENT".data
      · rw [if_pos hks]
      · rw [if_neg hks, hnum]
        rfl
  have hsugg0 : ∀ field text (orig : ℚ),
      extractField field "KEEP_CURRENT".data text = none →
      suggestedTime field text orig = orig := by
    intro field text orig hnone
    unfold suggestedTime
    rw [hnone]
  refine ⟨fun e => rfl, fun text => rfl, fun text => rfl,
    fun text h => ?_, fun text raw h hd => ?_, fun text h => ?_, fun text raw h hd => ?_,
    fun text h => ?_⟩
  · show suggestedTime "SUGGESTED_START:".data text start_time = start_time
    exact hsugg0 _ _ _ h
  · show suggestedTime "SUGGESTED_START:".data text start_time = start_time
    exact hsugg _ _ _ _ h hd
  · show suggestedTime "SUGGESTED_END:".data text end_time = end_time
    exact hsugg0 _ _ _ h
  · show suggestedTime "SUGGESTED_END:".data text end_time = end_time
    exact hsugg _ _ _ _ h hd
  · show (parse_improvement_response text start_time end_time).confidence = "MEDIUM".data
    unfold parse_improvement_response
    rw [h]

theorem claim_C5_amended_witness :
    suggest_clip_improvements (.error ⟨"down".data⟩) 3 20 =
        { suggested_start := 3, suggested_end := 20,
          improvement_reason := "Could not analyze improvements".data,
          confidence := "LOW".data, changed := none } ∧
      (parse_improvement_response "CONFIDENCE: HIGH".data 3 20).suggested_start = 3 :=
  ⟨(claim_C5_amended 3 20).1 ⟨"down".data⟩,
   (claim_C5_amended 3 20).2.2.2.1 "CONFIDENCE: HIGH".data (by decide)⟩

/-- C4 counterexample: with the spec-modelled table, description `"fed"`
(description confidence 0.2) and `segModel` (content confidence 1) agree on
`fed`, yet the combined agreement confidence min((0.2+1)/1.5, 1) = 0.8 is
strictly below the content sub-confidence — refuting `combined ≥ each
sub-confidence alone`. -/
theorem claim_C4_counterexample :
    (classify_by_description catsModel "fed".data).primary_category =
        (classify_by_content catsModel segModel).primary_category ∧
      (classify_combined catsModel "fed".data segModel 0 60).confidence_score <
        (classify_by_content catsModel segModel).confidence_score := by
  decide

/-- C4 (amended): when the two methods agree, the combined confidence
min((descConf + contentConf)/1.5, 1) is at least the smaller of the two
sub-confidences (the counterexample shows it can drop below the larger one);
when they disagree, the combined confidence equals 0.7 times the higher
sub-confidence and is strictly below it. -/
theorem claim_C4_amended (cats : Cats) (description seg : List Char) (st en : ℚ) :
    ((classify_by_description cats description).primary_category =
        (classify_by_content cats seg).primary_category →
      min (classify_by_description cats description).confidence_score
          (classify_by_content cats seg).confidence_score ≤
        (classify_combined cats description seg st en).confidence_score) ∧
    ((classify_by_description cats description).primary_category ≠
        (classify_by_content cats seg).primary_category →
      (classify_combined cats description seg st en).confidence_score =
          7 / 10 * max (classify_by_description cats description).confidence_score
            (classify_by_content cats seg).confidence_score ∧
        (classify_combined cats description seg st en).confidence_score <
          max (classify_by_description cats description).confidence_score
            (classify_by_content cats seg).confidence_score) := by
  obtain ⟨hd0, hd1, hdpos⟩ := classify_by_description_conf cats description
  obtain ⟨hc0, hc1, hcpos⟩ := classify_by_content_conf cats seg
  set dc := (classify_by_description cats description).confidence_score with hdc
  set cc := (classify_by_content cats seg).confidence_score with hcc
  constructor
  · intro hagree
    simp only [classify_combined, ← hdc, ← hcc]
    rw [if_pos hagree]
    show min dc cc ≤ min (qdiv (qadd dc cc) (mkRat 3 2)) 1
    rw [qdiv_eq, qadd_eq, mkRat_three_two]
    refine le_min ?_ ?_
    · rw [le_div_iff₀ (by norm_num)]
      rcases min_le_iff.mp (le_refl (min dc cc)) with h | h <;>
      · have h1 := min_le_left dc cc
        have h2 := min_le_right dc cc
        have h3 : 0 ≤ min dc cc := le_min hd0 hc0
        linarith
    · exact le_trans (min_le_left dc cc) hd1
  · intro hne
    have hmaxpos : 0 < max dc cc := by
      by_cases hg : (classify_by_description cats description).primary_category =
          "general".data
      · have hcg : (classify_by_content cats seg).primary_category ≠ "general".data := by
          rw [← hg]
          exact fun h => hne h.symm
        exact lt_max_of_lt_right (hcpos hcg)
      · exact lt_max_of_lt_left (hdpos hg)
    simp only [classify_combined, ← hdc, ← hcc]
    rw [if_neg hne]
    by_cases hlt : cc < dc
    · rw [if_pos hlt]
      show qmul dc (mkRat 7 10) = 7 / 10 * max dc cc ∧ qmul dc (mkRat 7 10) < max dc cc
      rw [qmul_eq, mkRat_seven_ten, max_eq_left (le_of_lt hlt)]
      constructor
      · ring
      · have : 0 < dc := lt_of_le_of_lt hc0 hlt
        linarith
    · rw [if_neg hlt]
      show qmul cc (mkRat 7 10) = 7 / 10 * max dc cc ∧ qmul cc (mkRat 7 10) < max dc cc
      rw [qmul_eq, mkRat_seven_ten, max_eq_right (le_of_not_lt hlt)]
      constructor
      · ring
      · have : 0 < cc := by
          rw [max_eq_right (le_of_not_lt hlt)] at hmaxpos
          exact hmaxpos
        linarith

theorem claim_C4_amended_witness :
    min (classify_by_description catsModel "fed".data).confidence_score
        (classify_by_content catsModel segModel).confidence_score ≤
      (classify_combined catsModel "fed".data segModel 0 60).confidence_score :=
  (claim_C4_amended catsModel "fed".data segModel 0 60).1 (by decide)

/-- The `NotFound` characterization in the fallback regime (some strict
field absent). -/
theorem fallback_case {t : List Char}
    (h : extractField "START_TIME:".data "NOT_FOUND".data t = none ∨
      extractField "END_TIME:".data "NOT_FOUND".data t = none) :
    (parse_timestamp_response t = (none, none) ↔ notFoundCond t) ∧
    (¬notFoundCond t →
      ∃ s e : ℚ, parse_timestamp_response t = (some s, some e) ∧ s < e) := by
  have hparse := parse_eq_fallback h
  have hsfn := strictFields_eq_none h
  have hsnone : strictNums t = none := by
    unfold strictNums
    rw [hsfn]
  have hnosent : ¬strictSentinel t := by
    rintro ⟨ab, hab, _⟩
    rw [hsfn] at hab
    exact absurd hab (by simp)
  have hstrictvac : ∀ p : ℚ × ℚ, strictNums t = some p → ¬p.1 < p.2 := by
    intro p hp
    rw [hsnone] at hp
    exact absurd hp (by simp)
  cases hP : findPair t with
  | none =>
    have hfb : fallbackPair t = (none, none) := by
      unfold fallbackPair
      rw [hP]
    have hfn : fallbackNums t = none := by
      unfold fallbackNums
      rw [hP]
    have hcond : notFoundCond t := Or.inr (Or.inr ⟨hstrictvac, fun p hp => by
      rw [hfn] at hp
      exact absurd hp (by simp)⟩)
    rw [hparse, hfb]
    exact ⟨⟨fun _ => hcond, fun _ => rfl⟩, fun hn => absurd hcond hn⟩
  | some cc =>
    obtain ⟨c1, c2⟩ := cc
    obtain ⟨hn1, hn2⟩ := findPair_shape hP
    have hfb : fallbackPair t =
        (if numVal c1 < numVal c2 then (some (numVal c1), some (numVal c2))
         else (none, none)) := by
      unfold fallbackPair
      rw [hP]
      show (match pyFloat c1, pyFloat c2 with
            | some s, some e => if s < e then (some s, some e) else (none, none)
            | _, _ => (none, none)) = _
      rw [pyFloat_numLit hn1, pyFloat_numLit hn2]
    have hfn : fallbackNums t = some (numVal c1, numVal c2) := by
      unfold fallbackNums
      rw [hP]
      show (match pyFloat c1, pyFloat c2 with
            | some x, some y => some (x, y)
            | _, _ => none) = _
      rw [pyFloat_numLit hn1, pyFloat_numLit hn2]
    by_cases hlt : numVal c1 < numVal c2
    · rw [if_pos hlt] at hfb
      have hncond : ¬notFoundCond t := by
        rintro (hsent | ⟨p, hp, _⟩ | ⟨_, h2⟩)
        · exact hnosent hsent
        · rw [hsnone] at hp
          exact absurd hp (by simp)
        · exact h2 (numVal c1, numVal c2) hfn hlt
      rw [hparse, hfb]
      exact ⟨⟨fun hcontr => absurd hcontr (by simp), fun hc => absurd hc hncond⟩,
        fun _ => ⟨numVal c1, numVal c2, rfl, hlt⟩⟩
    · rw [if_neg hlt] at hfb
      have hcond : notFoundCond t := Or.inr (Or.inr ⟨hstrictvac, fun p hp => by
        rw [hfn] at hp
        cases Option.some.inj hp
        exact hlt⟩)
      rw [hparse, hfb]
      exact ⟨⟨fun _ => hcond, fun _ => rfl⟩, fun hn => absurd hcond hn⟩

/-- C2: `_parse_timestamp_response` (total by construction — no step can
raise) returns the absence marker `(none, none)` exactly when a strict field
resolves to the `NOT_FOUND` sentinel, or the coerced strict pair has
`end ≤ start`, or neither the strict fields nor the fallback pattern yield a
pair with `end > start`; in every other case it returns the numeric pair. -/
theorem claim_C2_notfound_characterization (t : List Char) :
    (parse_timestamp_response t = (none, none) ↔ notFoundCond t) ∧
    (¬notFoundCond t →
      ∃ s e : ℚ, parse_timestamp_response t = (some s, some e) ∧ s < e) := by
  cases hS : extractField "START_TIME:".data "NOT_FOUND".data t with
  | some a =>
    cases hE : extractField "END_TIME:".data "NOT_FOUND".data t with
    | some b =>
      have hsf := strictFields_eq_some hS hE
      have hparse := parse_eq_strict hS hE
      by_cases hsent : upperStr a = "NOT_FOUND".data ∨ upperStr b = "NOT_FOUND".data
      · rw [if_pos hsent] at hparse
        have hcond : notFoundCond t := Or.inl ⟨(a, b), hsf, hsent⟩
        exact ⟨⟨fun _ => hcond, fun _ => hparse⟩, fun hn => absurd hcond hn⟩
      · have hna : isNumLit a = true := by
          rcases extractField_shape hS with h | h
          · exact h
          · rw [show upperStr "NOT_FOUND".data = "NOT_FOUND".data from by decide] at h
            exact absurd (Or.inl h) hsent
        have hnb : isNumLit b = true := by
          rcases extractField_shape hE with h | h
          · exact h
          · rw [show upperStr "NOT_FOUND".data = "NOT_FOUND".data from by decide] at h
            exact absurd (Or.inr h) hsent
        rw [if_neg hsent, pyFloat_numLit hna, pyFloat_numLit hnb] at hparse
        have hparse2 : parse_timestamp_response t =
            (if numVal b ≤ numVal a then (none, none)
             else (some (numVal a), some (numVal b))) := hparse
        have hsn : strictNums t = some (numVal a, numVal b) := by
          unfold strictNums
          rw [hsf]
          show (if upperStr a = "NOT_FOUND".data ∨ upperStr b = "NOT_FOUND".data then none
            else
              match pyFloat a, pyFloat b with
              | some x, some y => some (x, y)
              | _, _ => none) = _
          rw [if_neg hsent, pyFloat_numLit hna, pyFloat_numLit hnb]
        by_cases hle : numVal b ≤ numVal a
        · rw [if_pos hle] at hparse2
          have hcond : notFoundCond t := Or.inr (Or.inl ⟨(numVal a, numVal b), hsn, hle⟩)
          exact ⟨⟨fun _ => hcond, fun _ => hparse2⟩, fun hn => absurd hcond hn⟩
        · rw [if_neg hle] at hparse2
          have hlt : numVal a < numVal b := lt_of_not_le hle
          have hncond : ¬notFoundCond t := by
            rintro (⟨ab, hab, hs⟩ | ⟨p, hp, hple⟩ | ⟨h1, _⟩)
            · rw [hsf] at hab
              cases Option.some.inj hab
              exact hsent hs
            · rw [hsn] at hp
              cases Option.some.inj hp
              exact hle hple
            · exact h1 (numVal a, numVal b) hsn hlt
          refine ⟨⟨fun hcontr => ?_, fun hc => absurd hc hncond⟩,
            fun _ => ⟨numVal a, numVal b, hparse2, hlt⟩⟩
          rw [hparse2] at hcontr
          exact absurd hcontr (by simp)
    | none =>
      have hone : extractField "START_TIME:".data "NOT_FOUND".data t = none ∨
          extractField "END_TIME:".data "NOT_FOUND".data t = none := Or.inr hE
      exact fallback_case hone
  | none =>
    exact fallback_case (Or.inl hS)

theorem claim_C2_notfound_characterization_witness :
    ∃ s e : ℚ,
      parse_timestamp_response "START_TIME: 1 END_TIME: 2".data = (some s, some e) ∧ s < e :=
  (claim_C2_notfound_characterization "START_TIME: 1 END_TIME: 2".data).2 (by
    rintro (⟨ab, hab, hsent⟩ | ⟨p, hp, hle⟩ | ⟨hs, _⟩)
    · rw [show strictFields "START_TIME: 1 END_TIME: 2".data = some (['1'], ['2']) from
        by decide] at hab
      cases Option.some.inj hab
      revert hsent
      decide
    · rw [show strictNums "START_TIME: 1 END_TIME: 2".data = some (1, 2) from by decide] at hp
      cases Option.some.inj hp
      revert hle
      decide
    · exact hs (1, 2) (by decide) (by decide))

/-- C8: the clustering bonus sorts the positions ascending (a permutation of
the input, sorted) and sums one contribution per adjacent pair; a pair at
distance `d ≤ 100` contributes `(100 - d)/100`, which is monotonically
non-increasing in `d`, a pair beyond 100 characters contributes exactly 0,
and fewer than two positions give bonus 0. -/
theorem claim_C8_clustering_bonus :
    (∀ (ps : List ℕ) (n : ℕ), ps.length < 2 → calculate_clustering_bonus ps n = 0) ∧
    (∀ (ps : List ℕ) (n : ℕ),
      calculate_clustering_bonus ps n =
          ((sortAsc ps).zip (sortAsc ps).tail).foldr
            (fun q acc => pairContribution (q.2 - q.1) + acc) 0 ∧
        (sortAsc ps).Pairwise (· ≤ ·) ∧ List.Perm (sortAsc ps) ps) ∧
    (∀ d₁ d₂ : ℕ, d₁ ≤ d₂ → d₂ ≤ 100 → pairContribution d₂ ≤ pairContribution d₁) ∧
    (∀ d : ℕ, 100 < d → pairContribution d = 0) := by
  refine ⟨?_, ?_, ?_, ?_⟩
  · intro ps n h
    unfold calculate_clustering_bonus
    rw [if_pos h]
  · intro ps n
    refine ⟨?_, sortAsc_sorted ps, sortAsc_perm ps⟩
    unfold calculate_clustering_bonus
    split
    · next hlen =>
      match ps, hlen with
      | [], _ => rfl
      | [a], _ => rfl
    · exact adjacentSum_eq_pairSum _
  · intro d₁ d₂ h12 h2
    unfold pairContribution
    rw [if_pos h2, if_pos (le_trans h12 h2)]
    have hc1 : (d₁ : ℚ) ≤ (d₂ : ℚ) := by exact_mod_cast h12
    have hc2 : (d₂ : ℚ) ≤ 100 := by exact_mod_cast h2
    gcongr
  · intro d hd
    unfold pairContribution
    rw [if_neg (by omega)]

theorem claim_C8_clustering_bonus_witness :
    calculate_clustering_bonus [5] 10 = 0 ∧ pairContribution 150 = 0 ∧
      pairContribution 40 ≤ pairContribution 20 :=
  ⟨claim_C8_clustering_bonus.1 [5] 10 (by decide),
   claim_C8_clustering_bonus.2.2.2 150 (by decide),
   claim_C8_clustering_bonus.2.2.1 20 40 (by decide) (by decide)⟩

/-- C9: `get_category_suggestions` returns at most 3 entries, sorted by
descending confidence, each entry's confidence being the combined score
(description score × 0.6 + content score × 0.8) divided by 10 and clamped to
[0, 1].  The table's category names are assumed distinct, as they are keys
of the Python `TOPIC_CATEGORIES` dict. -/
theorem claim_C9_suggestions (cats : Cats) (description seg : List Char)
    (hnd : (cats.map Prod.fst).Nodup) :
    (get_category_suggestions cats description seg).length ≤ 3 ∧
    (get_category_suggestions cats description seg).Pairwise
      (fun a b => b.confidence ≤ a.confidence) ∧
    ∀ x ∈ get_category_suggestions cats description seg,
      x.confidence = min ((x.description_score * (3 / 5) + x.content_score * (4 / 5)) / 10) 1 ∧
        0 ≤ x.confidence ∧ x.confidence ≤ 1 := by
  simp only [get_category_suggestions]
  refine ⟨?_, ?_, ?_⟩
  · rw [List.length_take]
    exact min_le_left 3 _
  · exact (sortByConf_sorted _).sublist (List.take_sublist 3 _)
  · intro x hx
    have hx1 : x ∈ sortByConf _ := (List.take_sublist 3 _).subset hx
    have hx2 := (sortByConf_perm _).mem_iff.mp hx1
    obtain ⟨e, he, hex⟩ := List.mem_map.mp hx2
    have hinv : EntryInv e := by
      refine foldl_merge_inv (classify_by_content cats seg).all_scores _ ?_ ?_ ?_ ?_ e he
      · intro e' he'
        obtain ⟨a, ha, hae⟩ := List.mem_map.mp he'
        have hpos := desc_all_scores_pos cats description a ha
        rw [← hae]
        refine ⟨?_, le_of_lt hpos, le_refl 0⟩
        show qmul a.2 (mkRat 3 5) = a.2 * (3 / 5) + 0 * (4 / 5)
        rw [qmul_eq, mkRat_three_five]
        ring
      · intro e' he' hne
        obtain ⟨a, _, hae⟩ := List.mem_map.mp he'
        rw [← hae] at hne
        exact absurd rfl hne
      · exact fun y hy => le_of_lt (content_all_scores_pos cats seg y hy)
      · exact (content_all_scores_keys cats seg).nodup hnd
    obtain ⟨hcomb, hds, hcs⟩ := hinv
    rw [← hex]
    refine ⟨?_, ?_, min_le_right _ _⟩
    · show min (qdiv e.2.2.2 10) 1 = min ((e.2.1 * (3 / 5) + e.2.2.1 * (4 / 5)) / 10) 1
      rw [qdiv_eq, hcomb]
    · show (0 : ℚ) ≤ min (qdiv e.2.2.2 10) 1
      rw [qdiv_eq, hcomb]
      have : (0 : ℚ) ≤ (e.2.1 * (3 / 5) + e.2.2.1 * (4 / 5)) / 10 := by positivity
      exact le_min this (by norm_num)

theorem claim_C9_suggestions_witness :
    (get_category_suggestions catsModel "fed".data segModel).length ≤ 3 :=
  (claim_C9_suggestions catsModel "fed".data segModel (by decide)).1

end ClipGen

